import Mathlib

/-!
Verification of the topic-sync-automation repository.

The repository patches configuration documents: it inserts a new entry into a
named section of a document while preserving the physical order of existing
entries, guards the insertion with a membership test, derives identifiers from
the topic name, infers a unique key and column types for a generated model,
and aggregates per-task results into one exit status.

The embedding below models document text as `List Char` (one byte-faithful
character list), mirroring the Python string operations of the source scripts:
`src/scripts/step1_helm_apps.py`, `src/scripts/step2_data_airflow.py`,
`src/scripts/step3_dbt_realtime_sink.py`, `src/scripts/parallel_pr_creator.py`.
The regex-based section locator is abstracted: documents arrive pre-split at
the match boundaries the Python regex produces, and the functions below embed
everything the scripts do with the matched groups.
-/

namespace TopicSync

/-- Python whitespace characters, as used by `str.strip()` and `\s`. -/
def pySpace (c : Char) : Bool :=
  c = ' ' || c = '\t' || c = '\n' || c = '\r' || c = '\x0b' || c = '\x0c'

/-- Python `s.strip()`: drop leading and trailing whitespace. -/
def pyStrip (l : List Char) : List Char :=
  ((l.dropWhile pySpace).reverse.dropWhile pySpace).reverse

/-- Python `s.rstrip(',')`: drop trailing commas. -/
def rstripComma (l : List Char) : List Char :=
  (l.reverse.dropWhile (· = ',')).reverse

/-- Python `s.split('\n')`: split at every newline, keeping empty segments. -/
def splitNl : List Char → List (List Char)
  | [] => [[]]
  | c :: cs =>
    match splitNl cs, decide (c = '\n') with
    | r, true => [] :: r
    | [], false => [[c]]
    | h :: t, false => (c :: h) :: t

/-- Python string comparison `a < b`: lexicographic on code points. -/
def pyLt : List Char → List Char → Bool
  | [], [] => false
  | [], _ :: _ => true
  | _ :: _, [] => false
  | a :: as, b :: bs =>
    if a.toNat < b.toNat then true
    else if b.toNat < a.toNat then false
    else pyLt as bs

/-- Python `x in xs` for a list of strings (membership by equality). -/
def listMem (x : List Char) : List (List Char) → Bool
  | [] => false
  | y :: ys => if x = y then true else listMem x ys

/-- Python `list.insert(k, x)` (clamped at the length, as in Python). -/
def insertAt (k : Nat) (x : α) (l : List α) : List α :=
  l.take k ++ x :: l.drop k

/-- The shared insertion-position scan of step1 and step2: the index of the
first element the predicate `gt` holds for (meaning: the new key is smaller
than that element), or the length if there is none.  Mirrors the
`for i, existing in enumerate(...): if new < existing: break` loops. -/
def insertIndexBy (gt : α → Bool) : List α → Nat
  | [] => 0
  | e :: es => if gt e then 0 else insertIndexBy gt es + 1

/-! ## Step 1: `step1_helm_apps.py` -/

/-- `get_connector_name` of step1 (lines 15-26), verbatim control flow:
any `sink_type` other than `realtime` takes the s3 branch, any `value_type`
other than `json` takes the protobuf branch. -/
def get_connector_name (value_type sink_type : String) : String :=
  if sink_type = "realtime" then
    if value_type = "json" then "snowflake-realtime-sink-json-v2"
    else "snowflake-realtime-sink-protobuf-v2"
  else
    if value_type = "json" then "s3-sink-json-to-json"
    else "s3-sink-protobuf-to-json"

/-- `generate_table_name` (identical in step1, step2 and step3):
`topic.replace('.', '__').replace('-', '_') + '__raw'`. -/
def pyReplaceChar (c : Char) (rep : List Char) : List Char → List Char
  | [] => []
  | a :: as => (if a = c then rep else [a]) ++ pyReplaceChar c rep as

def generate_table_name (topic : List Char) : List Char :=
  pyReplaceChar '-' ['_'] (pyReplaceChar '.' ['_', '_'] topic) ++ "__raw".data

/-- The topics-section parse used by both `check_topic_exists` (line 45) and
`add_topic_to_file` (lines 66-70):
`[t.strip().rstrip(',') for t in section.strip().split('\n') if t.strip()]`. -/
def parseTopics (body : List Char) : List (List Char) :=
  (splitNl (pyStrip body)).filterMap fun seg =>
    let t := pyStrip seg
    if t = [] then none else some (rstripComma t)

/-- The re-rendering of the topics section (step1 lines 82-88):
`'        ' + ',\n        '.join(topic_list)` followed by the newline the
regex replacement re-appends. -/
def renderTopics (l : List (List Char)) : List Char :=
  "        ".data ++ List.intercalate ",\n        ".data l ++ "\n".data

/-- Insertion into the parsed topic list (step1 lines 72-80): find the first
existing topic the new one is smaller than, insert there, else append. -/
def insertEntry (topic : List Char) (l : List (List Char)) : List (List Char) :=
  insertAt (insertIndexBy (fun e => pyLt topic e) l) topic l

/-- The `topic2table` mapping key: Python `m.split(':')[0]`. -/
def mapKey (m : List Char) : List Char := m.takeWhile (· ≠ ':')

/-- The remainder of the document after the topics section.  For the realtime
sink the script additionally looks for the `snowflake.topic2table.map` section
in the remainder; `withMap` is the decomposition at that second match,
`plain` is the case where the second regex finds nothing. -/
inductive RestPart where
  | plain (s : List Char)
  | withMap (mid mapBody tail : List Char)

def restText : RestPart → List Char
  | .plain s => s
  | .withMap mid mapBody tail => mid ++ mapBody ++ tail

/-- The `topic2table.map` patch of `add_topic_to_file` (step1 lines 97-141):
if the map section was not located, the content is left as is (log and
continue); if the mapping already exists, no map edit happens; otherwise the
new `topic:table` mapping is inserted before the first mapping whose key part
is greater. -/
def patchRest (topic : List Char) : RestPart → List Char
  | .plain s => s
  | .withMap mid mapBody tail =>
    let mappingList := parseTopics mapBody
    if mappingList.any (fun m => List.isPrefixOf (topic ++ [':']) m) then
      mid ++ mapBody ++ tail
    else
      let newMapping := topic ++ [':'] ++ generate_table_name topic
      let k := insertIndexBy (fun m => pyLt topic (mapKey m)) mappingList
      mid ++ renderTopics (insertAt k newMapping mappingList) ++ tail

/-- A helm-apps document split at the topics-section match of step1:
`pre` is everything up to and including the `topics: >-` anchor line
(group 1 of the regex), `body` is the indented block of topic lines
(group 2), `rest` is the remainder of the file. -/
structure HelmDoc where
  pre : List Char
  body : List Char
  rest : RestPart

def docText (d : HelmDoc) : List Char := d.pre ++ d.body ++ restText d.rest

/-- `check_topic_exists` (step1 lines 35-47) on a located document. -/
def check_topic_exists (d : HelmDoc) (topic : List Char) : Bool :=
  listMem topic (parseTopics d.body)

/-- `add_topic_to_file` (step1 lines 50-142) on a located document. -/
def add_topic_to_file (d : HelmDoc) (topic : List Char) (realtime : Bool) :
    List Char :=
  d.pre ++ renderTopics (insertEntry topic (parseTopics d.body)) ++
    (if realtime then patchRest topic d.rest else restText d.rest)

/-- The step1 surface (its `main`, lines 222-295): when the topic already
exists nothing is written (the document is left as is, `sys.exit(0)` before
any write); otherwise the patched content is written. -/
def step1_patch (d : HelmDoc) (topic : List Char) (realtime : Bool) :
    List Char :=
  if check_topic_exists d topic then docText d
  else add_topic_to_file d topic realtime

/-! ## Step 2: `step2_data_airflow.py` -/

/-- The literal `table="`. -/
def tableLit : List Char := "table=\"".data

/-- The literal `StreamTaskConfig(`. -/
def stcLit : List Char := "StreamTaskConfig(".data

/-- `re.search(r'table="([^"]+)"', line)`: the leftmost occurrence of
`table="` followed by at least one non-quote character and a closing quote;
an occurrence with an empty or unterminated capture is skipped and the scan
continues at the next position. -/
def findTable : List Char → Option (List Char)
  | [] => none
  | c :: cs =>
    if tableLit.isPrefixOf (c :: cs) then
      let rest := (c :: cs).drop tableLit.length
      let inner := rest.takeWhile (· ≠ '"')
      if inner ≠ [] ∧ inner.length < rest.length then some inner
      else findTable cs
    else findTable cs

/-- `'StreamTaskConfig(' in line`. -/
def hasSTC (line : List Char) : Bool := decide (stcLit <:+: line)

/-- `line.strip() == ''`. -/
def isBlankLine (line : List Char) : Bool := pyStrip line = []

/-- `line.strip().endswith('),')`. -/
def endsClose (line : List Char) : Bool := "),".data.isSuffixOf (pyStrip line)

/-- The forward scan `for i, line in enumerate(lines): ...` returning the
index of the first element satisfying `p`. -/
def findFirstIdx (p : α → Bool) : List α → Option Nat
  | [] => none
  | a :: as => if p a then some 0 else (findFirstIdx p as).map (· + 1)

/-- The backward scans (`for j in range(i, -1, -1)` and
`for i in range(len(lines) - 1, -1, -1)`): the greatest index satisfying
`p`, i.e. the first hit when scanning from the end. -/
def findLastIdx (p : α → Bool) : List α → Option Nat
  | [] => none
  | a :: as =>
    match findLastIdx p as with
    | some j => some (j + 1)
    | none => if p a then some 0 else none

/-- The line satisfying the forward scan of step2 lines 50-54: a
`table="..."` match whose captured table the new table name sorts before. -/
def tableGt (tableName line : List Char) : Bool :=
  match findTable line with
  | some tb => pyLt tableName tb
  | none => false

/-- Step2 lines 50-62: find the first line whose table the new name sorts
before, then scan backwards from it for the start of that
`StreamTaskConfig(` block.  `none` means the append path is taken. -/
def step2_insertPos (lines : List (List Char)) (tableName : List Char) :
    Option Nat :=
  match findFirstIdx (tableGt tableName) lines with
  | some i => findLastIdx hasSTC (lines.take (i + 1))
  | none => none

/-- Step2 lines 64-71: indentation of the first `StreamTaskConfig(` line
(default 8 spaces when there is none, or when it has no leading whitespace). -/
def detectIndent (lines : List (List Char)) : List Char :=
  match lines.find? hasSTC with
  | some l => let w := l.takeWhile pySpace; if w = [] then "        ".data else w
  | none => "        ".data

/-- The four lines of the new entry (step2 lines 73-79). -/
def entryLines (indent tableName : List Char) : List (List Char) :=
  [ indent ++ "StreamTaskConfig(".data,
    indent ++ "    table=\"".data ++ tableName ++ "\",".data,
    indent ++ "    warehouse=\"LOADER_PRODUCTION_STREAMING\",".data,
    indent ++ "),".data ]

/-- The line-list transformation of `add_stream_config_to_file`
(step2 lines 47-109).  Insert path: a blank line immediately before the
insertion point is removed first; append path: the entry goes after the last
line ending in `),`, with the blank lines following it removed; when neither
path applies the lines are returned unchanged. -/
def step2_newLines (lines : List (List Char)) (tableName : List Char) :
    List (List Char) :=
  let entry := entryLines (detectIndent lines) tableName
  match step2_insertPos lines tableName with
  | some idx =>
    if idx > 0 && isBlankLine (lines.getD (idx - 1) []) then
      lines.take (idx - 1) ++ entry ++ lines.drop idx
    else
      lines.take idx ++ entry ++ lines.drop idx
  | none =>
    match findLastIdx endsClose lines with
    | some i => lines.take (i + 1) ++ entry ++ (lines.drop (i + 1)).dropWhile isBlankLine
    | none => lines

/-- `add_stream_config_to_file` (step2 lines 27-112) on a document split at
the `configs = [...]` match: `before` is the text before the match, `prefix`
is group 1 (`configs = [`), `configsContent` group 2, `suffix` group 3
(`\n...]`), `after` the text after the match. -/
def add_stream_config_to_file (before pfx configsContent suffix after
    tableName : List Char) : List Char :=
  let lines := splitNl configsContent
  let newLines := step2_newLines lines tableName
  before ++ pfx ++ List.intercalate "\n".data newLines ++ suffix ++ after

/-- The table names appearing in a line list, in physical order
(`re.findall(r'table="([^"]+)"', ...)`, for lines with at most one match). -/
def extractTables (lines : List (List Char)) : List (List Char) :=
  lines.filterMap findTable

/-! ## Step 3: `step3_dbt_realtime_sink.py` -/

/-- Python `str.lower()` (ASCII case mapping, which covers every string the
scripts compare). -/
def pyLower (l : List Char) : List Char := l.map Char.toLower

/-- The curated allowlist of true identifier fields
(`unique_id_patterns`, step3 lines 239-241). -/
def uniqueIdPatterns : List (List Char) := ["override_id".data]

/-- `infer_unique_key_from_fields` (step3 lines 209-248): `None` for an empty
field list; otherwise the first allowlisted identifier present among the
lowercased field names yields `(field + '__sk', field, True)`; `None` when
none is present. -/
def infer_unique_key_from_fields (fieldList : List (List Char)) :
    Option (List Char × List Char × Bool) :=
  if fieldList = [] then none
  else
    let fieldsLower := fieldList.map pyLower
    match uniqueIdPatterns.find? (fun p => listMem p fieldsLower) with
    | some p => some (p ++ "__sk".data, p, true)
    | none => none

/-- The ordered topic-substring table of `infer_unique_key_from_topic`
(step3 lines 265-274). -/
def topicPatterns : List (List Char × List Char × Bool) :=
  [ ("device".data, "device_id__sk".data, true),
    ("feedback".data, "feedback_id__sk".data, true),
    ("audit".data, "audit_id__sk".data, true),
    ("compliance".data, "compliance_id__sk".data, true),
    ("vulnerability".data, "vulnerability_id__sk".data, true),
    ("threat".data, "threat_id__sk".data, true),
    ("agent".data, "agent_id__sk".data, true),
    ("experience".data, "experience_id__sk".data, true) ]

/-- `infer_unique_key_from_topic` (step3 lines 251-281): first substring match
against the lowercased topic wins; generic default `event_id__sk`. -/
def infer_unique_key_from_topic (topic : List Char) : List Char × Bool :=
  let tl := pyLower topic
  match topicPatterns.find? (fun pat => decide (pat.1 <:+: tl)) with
  | some pat => (pat.2.1, pat.2.2)
  | none => ("event_id__sk".data, true)

/-- The two-tier unique-key dispatch of the step3 `main`
(lines 874-890): the field tier wins when it finds an identifier,
otherwise the topic tier decides. -/
def inferUniqueKey (fieldList : List (List Char)) (topic : List Char) :
    List Char :=
  match infer_unique_key_from_fields fieldList with
  | some r => r.1
  | none => (infer_unique_key_from_topic topic).1

/-- The name-substring tables of `infer_snowflake_type`
(step3 lines 298, 302, 306). -/
def tsSubs : List (List Char) :=
  ["timestamp".data, "time".data, "date".data, "created".data,
   "updated".data, "modified".data]

def boolSubs : List (List Char) :=
  ["is_".data, "has_".data, "enabled".data, "disabled".data, "active".data]

def numSubs : List (List Char) :=
  ["count".data, "amount".data, "total".data, "score".data,
   "rating".data, "version".data]

/-- `any(x in field_lower for x in subs)`. -/
def containsAnySub (f : List Char) (subs : List (List Char)) : Bool :=
  subs.any (fun x => decide (x <:+: f))

/-- `infer_snowflake_type` (step3 lines 284-320), with the fallthrough of the
numeric branch (no `int`, no `float` observed) linearised into the later
branches exactly as the Python control flow resolves it. -/
def infer_snowflake_type (fieldName : List Char)
    (pythonTypes : List (List Char)) : List Char :=
  let f := pyLower fieldName
  if containsAnySub f tsSubs then "to_timestamp_ntz".data
  else if containsAnySub f boolSubs then "to_boolean".data
  else if containsAnySub f numSubs && listMem "int".data pythonTypes then
    "to_number".data
  else if containsAnySub f numSubs && listMem "float".data pythonTypes then
    "to_double".data
  else if "_id".data.isSuffixOf f || f = "id".data then "to_varchar".data
  else if listMem "dict".data pythonTypes || listMem "list".data pythonTypes then
    "variant".data
  else "to_varchar".data

/-- Association-list model of the `field_types` dict (insertion order is
dict iteration order); `lookupType` is `field_types[field]` guarded by
`field in field_types`. -/
def lookupType (ft : List (List Char × List (List Char))) (f : List Char) :
    Option (List (List Char)) :=
  (ft.find? (fun kv => decide (kv.1 = f))).map (·.2)

/-- `priority_arrays` (step3 line 334). -/
def priorityArrays : List (List Char) :=
  ["applications".data, "events".data, "items".data,
   "records".data, "data".data, "results".data]

/-- `detect_array_field` (step3 lines 323-346). -/
def detect_array_field (ft : List (List Char × List (List Char))) :
    Option (List Char) × Bool :=
  if ft = [] then (none, false)
  else
    match priorityArrays.find?
        (fun name => (lookupType ft name).any (fun ts => listMem "list".data ts)) with
    | some name => (some name, true)
    | none =>
      match ft.find? (fun kv => listMem "list".data kv.2) with
      | some kv => (some kv.1, true)
      | none => (none, false)

/-- The `fields` argument of `generate_dbt_model`: either a comma-separated
string or a list (step3 lines 361-367). -/
inductive FieldsArg where
  | str (s : List Char)
  | list (l : List (List Char))

/-- Python `s.split(',')`. -/
def splitComma : List Char → List (List Char)
  | [] => [[]]
  | c :: cs =>
    match splitComma cs, decide (c = ',') with
    | r, true => [] :: r
    | [], false => [[c]]
    | h :: t, false => (c :: h) :: t

def fieldListOf : FieldsArg → List (List Char)
  | .str s => (splitComma s).filterMap fun f =>
      let t := pyStrip f
      if t = [] then none else some t
  | .list l => l

/-- SQL reserved words quoted as aliases (step3 line 452). -/
def reservedWords : List (List Char) :=
  ["name".data, "comment".data, "order".data,
   "group".data, "user".data, "version".data]

/-- One cast line of the field-extraction loop (step3 lines 445-457). -/
def castLine (extractionSource field aliasName castFunc : List Char) : List Char :=
  if castFunc = "variant".data then
    "    ".data ++ extractionSource ++ [':'] ++ field ++ "::variant as ".data ++
      aliasName ++ ",".data
  else
    "    ".data ++ castFunc ++ "(".data ++ extractionSource ++ [':'] ++ field ++
      ") as ".data ++ aliasName ++ ",".data

/-- `generate_dbt_model` (step3 lines 349-505). -/
def generate_dbt_model (tableName : List Char) (_modelName : List Char)
    (fields : FieldsArg) (topic : List Char)
    (fieldTypes : Option (List (List Char × List (List Char))))
    (flattenArray : Option (List Char)) : List Char :=
  let fieldList := fieldListOf fields
  let fieldsLower := fieldList.map pyLower
  let bun : Option (List Char) × List Char × Bool :=
    if listMem "override_id".data fieldsLower then
      (some "override_id".data, "override_id__sk".data, true)
    else
      let tk := infer_unique_key_from_topic topic
      (none, tk.1, tk.2)
  let baseIdField := bun.1
  let uniqueKey := bun.2.1
  let needsSurrogate := bun.2.2
  let afuf : Option (List Char) × Bool :=
    match flattenArray with
    | some a => (some a, a ≠ [])
    | none =>
      match fieldTypes with
      | some ft => if ft = [] then (none, false) else detect_array_field ft
      | none => (none, false)
  let arrayField := afuf.1
  let usesFlatten := afuf.2
  let extractionSource :=
    if usesFlatten then "app.value".data else "record_content".data
  let surrogateKeySql : List Char :=
    if needsSurrogate then
      match baseIdField with
      | some b =>
        "    nvl2(\n        meta__kafka_headers:ce_id,\n        \x7b\x7b dbt_utils.generate_surrogate_key([\n            \x27meta__kafka_headers:ce_id\x27,\n            \x27".data ++
          extractionSource ++ [':'] ++ b ++
          "\x27\n        ]) \x7d\x7d,\n        null\n    ) as ".data ++
          uniqueKey ++ ",\n".data
      | none =>
        "    nvl2(\n        meta__kafka_headers:ce_id,\n        \x7b\x7b dbt_utils.generate_surrogate_key([\n            \x27meta__kafka_headers:ce_id\x27,\n            \x27meta__partition_offset_location__sk\x27\n        ]) \x7d\x7d,\n        null\n    ) as ".data ++
          uniqueKey ++ ",\n".data
    else []
  let baseExtraction : List (List Char) :=
    match baseIdField with
    | some b =>
      let castFunc :=
        match fieldTypes with
        | some ft =>
          match lookupType ft b with
          | some ts => infer_snowflake_type b ts
          | none => "to_varchar".data
        | none => "to_varchar".data
      [castLine extractionSource b b castFunc]
    | none => []
  let loopExtractions : List (List Char) := fieldList.filterMap fun field =>
    if usesFlatten && arrayField = some field then none
    else if baseIdField.any (fun b => pyLower field = pyLower b) then none
    else
      let castFunc :=
        match fieldTypes with
        | some ft =>
          match lookupType ft field with
          | some ts => infer_snowflake_type field ts
          | none => "to_varchar".data
        | none => "to_varchar".data
      let aliasName :=
        if listMem (pyLower field) reservedWords then
          "\"".data ++ field ++ "\"".data
        else field
      some (castLine extractionSource field aliasName castFunc)
  let fieldExtractions := baseExtraction ++ loopExtractions
  let fromClause :=
    if usesFlatten then
      "from \x7b\x7b source(\x27kafka_realtime\x27, \x27".data ++ tableName ++
        "_processed\x27) \x7d\x7d,\n    lateral flatten(input => record_content:".data ++
        arrayField.getD [] ++ ") as app".data
    else
      "from \x7b\x7b source(\x27kafka_realtime\x27, \x27".data ++ tableName ++
        "_processed\x27) \x7d\x7d".data
  let tag :=
    if decide ("vulnerability".data <:+: pyLower topic) ||
        decide ("vulnerability_management".data <:+: pyLower topic) then
      "vulnerability".data
    else "kafka_extracted".data
  "\x7b\x7b\n  config(\n        unique_key=\x27".data ++ uniqueKey ++
    "\x27,\n        tags=[\"".data ++ tag ++
    "\"]\n  )\n\x7d\x7d\n\nselect\n".data ++
    surrogateKeySql ++ List.intercalate "\n".data fieldExtractions ++
    "\n    meta__kafka_topic,\n    meta__partition,\n    meta__offset,\n    meta__kafka_location,\n    meta__partition_offset_location__sk,\n    meta__kafka_timestamp,\n    meta__kafka_headers,\n    meta__kafka_key,\n    meta__kafka_key__sk,\n    meta__is_tombstone,\n    meta__materialized_at\n".data ++
    fromClause ++
    "\n\n\x7b% if is_incremental() %\x7d\n    WHERE meta__materialized_at > (\n        SELECT max(meta__materialized_at)\n        FROM \x7b\x7b this \x7d\x7d\n    )\n\x7b% endif %\x7d\n".data

/-! ## Orchestrator: `parallel_pr_creator.py` -/

/-- The exit-status aggregation of `main` (lines 961-965): the final results
map as a list of `(step name, terminal status)` pairs; the process exits 0
when no status is `failed`, 1 otherwise. -/
def failedCount (results : List (String × String)) : Nat :=
  (results.filter (fun r => r.2 = "failed")).length

def overallExitCode (results : List (String × String)) : Nat :=
  if failedCount results = 0 then 0 else 1

/-! ## General lemmas -/

theorem listMem_iff {x : List Char} : ∀ {l : List (List Char)},
    listMem x l = true ↔ x ∈ l
  | [] => by simp [listMem]
  | y :: ys => by
    by_cases h : x = y
    · subst h; simp [listMem]
    · simp [listMem, h, listMem_iff (l := ys)]

theorem insertIndexBy_le (gt : α → Bool) : ∀ l : List α,
    insertIndexBy gt l ≤ l.length
  | [] => Nat.le_refl 0
  | e :: es => by
    by_cases h : gt e
    · simp [insertIndexBy, h]
    · simpa [insertIndexBy, h, Nat.succ_le_succ_iff] using insertIndexBy_le gt es

theorem insertIndexBy_before (gt : α → Bool) : ∀ (l : List α) (j : Nat)
    (h : j < l.length), j < insertIndexBy gt l → gt (l.get ⟨j, h⟩) = false
  | e :: es, 0, _, hj => by
    by_cases h : gt e
    · simp [insertIndexBy, h] at hj
    · simp [h]
  | e :: es, j + 1, hlen, hj => by
    by_cases h : gt e
    · simp [insertIndexBy, h] at hj
    · simp only [insertIndexBy, h, if_false] at hj
      exact insertIndexBy_before gt es j (Nat.lt_of_succ_lt_succ hlen)
        (Nat.lt_of_succ_lt_succ hj)

theorem insertIndexBy_at (gt : α → Bool) : ∀ (l : List α)
    (h : insertIndexBy gt l < l.length), gt (l.get ⟨insertIndexBy gt l, h⟩) = true
  | e :: es, h => by
    by_cases hg : gt e
    · simp [insertIndexBy, hg]
    · simp only [insertIndexBy, hg, if_false] at h ⊢
      exact insertIndexBy_at gt es (Nat.lt_of_succ_lt_succ h)

theorem mem_insertAt_self (k : Nat) (x : α) (l : List α) : x ∈ insertAt k x l := by
  simp [insertAt]

theorem mem_of_mem_insertAt {k : Nat} {x y : α} {l : List α}
    (h : y ∈ insertAt k x l) : y = x ∨ y ∈ l := by
  simp only [insertAt, List.mem_append, List.mem_cons] at h
  rcases h with h | h | h
  · exact Or.inr (List.mem_of_mem_take h)
  · exact Or.inl h
  · exact Or.inr (List.mem_of_mem_drop h)

theorem find?_append_of_none {p : α → Bool} {l₁ : List α}
    (h : ∀ x ∈ l₁, p x = false) (l₂ : List α) :
    (l₁ ++ l₂).find? p = l₂.find? p := by
  induction l₁ with
  | nil => rfl
  | cons a as ih =>
    have ha := h a (List.mem_cons_self a as)
    simp only [List.cons_append, List.find?_cons, ha]
    exact ih fun x hx => h x (List.mem_cons_of_mem a hx)

theorem infix_append_right {p a : List α} (b : List α) (h : p <:+: a) :
    p <:+: a ++ b := by
  obtain ⟨s, t, rfl⟩ := h
  exact ⟨s, t ++ b, by simp⟩

theorem infix_append_left {p b : List α} (a : List α) (h : p <:+: b) :
    p <:+: a ++ b := by
  obtain ⟨s, t, rfl⟩ := h
  exact ⟨a ++ s, t, by simp⟩

/-! ## Claim C4 -/

/-- Claim C4 counterexample: `get_connector_name` does not fail on
unrecognized enum values; for the out-of-enum value type `xml` it returns the
protobuf connector name, and for the out-of-enum sink type `tape` it returns
an s3 connector name, instead of reporting any error. -/
theorem C4_counterexample :
    get_connector_name "xml" "realtime" = "snowflake-realtime-sink-protobuf-v2" ∧
    get_connector_name "json" "tape" = "s3-sink-json-to-json" ∧
    "xml" ≠ "json" ∧ "xml" ≠ "protobuf" ∧ "tape" ≠ "realtime" ∧ "tape" ≠ "s3" := by
  refine ⟨rfl, rfl, ?_, ?_, ?_, ?_⟩ <;> decide

/-- Claim C4 (amended): `connectorName` agrees with the fixed 4-entry lookup
table on the two valid enums, and it is a total function whose result is
always one of the four connector names: an unrecognized value type falls into
the protobuf branch and an unrecognized sink type into the s3 branch; no
input makes it report an error (enum validation happens separately, in the
CLI argument parser, before the function is called). -/
theorem C4_connector_lookup :
    get_connector_name "json" "realtime" = "snowflake-realtime-sink-json-v2" ∧
    get_connector_name "protobuf" "realtime" = "snowflake-realtime-sink-protobuf-v2" ∧
    get_connector_name "json" "s3" = "s3-sink-json-to-json" ∧
    get_connector_name "protobuf" "s3" = "s3-sink-protobuf-to-json" ∧
    ∀ v s, get_connector_name v s ∈
      ["snowflake-realtime-sink-json-v2", "snowflake-realtime-sink-protobuf-v2",
       "s3-sink-json-to-json", "s3-sink-protobuf-to-json"] := by
  refine ⟨rfl, rfl, rfl, rfl, ?_⟩
  intro v s
  unfold get_connector_name
  by_cases hs : s = "realtime" <;> by_cases hv : v = "json" <;> simp [hs, hv]

/-! ## Claim C5 -/

/-- The table-name mapping as worded by the spec (for the refinement
comparison of claim C5): simultaneously replace every `.` by `__` and every
`-` by `_`, then append the fixed suffix. -/
def specTableName (topic : List Char) : List Char :=
  (topic.flatMap fun c =>
    if c = '.' then ['_', '_'] else if c = '-' then ['_'] else [c]) ++ "__raw".data

theorem pyReplaceChar_append (c : Char) (rep : List Char) :
    ∀ a b : List Char,
      pyReplaceChar c rep (a ++ b) = pyReplaceChar c rep a ++ pyReplaceChar c rep b
  | [], b => rfl
  | x :: xs, b => by
    simp [pyReplaceChar, pyReplaceChar_append c rep xs b, List.append_assoc]

theorem tableName_core : ∀ t : List Char,
    pyReplaceChar '-' ['_'] (pyReplaceChar '.' ['_', '_'] t) =
      t.flatMap fun c =>
        if c = '.' then ['_', '_'] else if c = '-' then ['_'] else [c]
  | [] => rfl
  | c :: t => by
    simp only [pyReplaceChar, List.flatMap_cons, pyReplaceChar_append]
    rw [tableName_core t]
    by_cases h1 : c = '.'
    · subst h1; rfl
    · by_cases h2 : c = '-'
      · subst h2; simp [pyReplaceChar]
      · simp [pyReplaceChar, h1, h2]

/-- Claim C5: `generate_table_name` is a pure total function with no failure
mode; it equals the per-character replacement the spec describes (every `.`
becomes `__`, every `-` becomes `_`, with the fixed `__raw` suffix appended),
it trivially yields identical output on repeated calls, and it maps
`audit.action.v1` to `audit__action__v1__raw`. -/
theorem C5_table_name :
    generate_table_name "audit.action.v1".data = "audit__action__v1__raw".data ∧
    (∀ t, generate_table_name t = specTableName t) ∧
    (∀ t, generate_table_name t = generate_table_name t) := by
  refine ⟨by decide, fun t => ?_, fun t => rfl⟩
  unfold generate_table_name specTableName
  rw [tableName_core t]

/-! ## Claim C8 -/

/-- Claim C8 counterexample: the field name `total` matches the numeric-name
rule (and no earlier rule), yet with observed types `{dict}` the code returns
`variant` — a later rule (the structured default) was consulted, so "first
matching name rule wins, later rules are never consulted" is false. -/
theorem C8_counterexample :
    containsAnySub (pyLower "total".data) numSubs = true ∧
    containsAnySub (pyLower "total".data) tsSubs = false ∧
    containsAnySub (pyLower "total".data) boolSubs = false ∧
    infer_snowflake_type "total".data ["dict".data] = "variant".data ∧
    "variant".data ≠ "to_number".data ∧ "variant".data ≠ "to_double".data := by
  refine ⟨?_, ?_, ?_, ?_, ?_, ?_⟩ <;> decide

/-- Claim C8 (amended): the classification is a fixed ordered rule list with
first-match-wins, except that the numeric rule carries an extra type guard:
timestamp names win over boolean names, which win over numeric names; a
numeric-named field yields a numeric cast only when an `int` (or else a
`float`) type was observed, and otherwise falls through to the identifier
rule and then the structured/default rule. -/
theorem C8_type_rules : ∀ (field : List Char) (types : List (List Char)),
    (containsAnySub (pyLower field) tsSubs = true →
      infer_snowflake_type field types = "to_timestamp_ntz".data) ∧
    (containsAnySub (pyLower field) tsSubs = false →
      containsAnySub (pyLower field) boolSubs = true →
      infer_snowflake_type field types = "to_boolean".data) ∧
    (containsAnySub (pyLower field) tsSubs = false →
      containsAnySub (pyLower field) boolSubs = false →
      containsAnySub (pyLower field) numSubs = true →
      listMem "int".data types = true →
      infer_snowflake_type field types = "to_number".data) ∧
    (containsAnySub (pyLower field) tsSubs = false →
      containsAnySub (pyLower field) boolSubs = false →
      containsAnySub (pyLower field) numSubs = true →
      listMem "int".data types = false → listMem "float".data types = true →
      infer_snowflake_type field types = "to_double".data) ∧
    (containsAnySub (pyLower field) tsSubs = false →
      containsAnySub (pyLower field) boolSubs = false →
      (containsAnySub (pyLower field) numSubs = false ∨
        (listMem "int".data types = false ∧ listMem "float".data types = false)) →
      ("_id".data.isSuffixOf (pyLower field) || pyLower field = "id".data) = true →
      infer_snowflake_type field types = "to_varchar".data) ∧
    (containsAnySub (pyLower field) tsSubs = false →
      containsAnySub (pyLower field) boolSubs = false →
      (containsAnySub (pyLower field) numSubs = false ∨
        (listMem "int".data types = false ∧ listMem "float".data types = false)) →
      ("_id".data.isSuffixOf (pyLower field) || pyLower field = "id".data) = false →
      (listMem "dict".data types || listMem "list".data types) = true →
      infer_snowflake_type field types = "variant".data) ∧
    (containsAnySub (pyLower field) tsSubs = false →
      containsAnySub (pyLower field) boolSubs = false →
      (containsAnySub (pyLower field) numSubs = false ∨
        (listMem "int".data types = false ∧ listMem "float".data types = false)) →
      ("_id".data.isSuffixOf (pyLower field) || pyLower field = "id".data) = false →
      (listMem "dict".data types || listMem "list".data types) = false →
      infer_snowflake_type field types = "to_varchar".data) := by
  intro field types
  refine ⟨?_, ?_, ?_, ?_, ?_, ?_, ?_⟩ <;> intros <;> unfold infer_snowflake_type
  · simp_all
  · simp_all
  · simp_all
  · simp_all
  · rcases ‹_ ∨ _› with h | ⟨h1, h2⟩ <;> simp_all
  · rcases ‹_ ∨ _› with h | ⟨h1, h2⟩ <;> simp_all
  · rcases ‹_ ∨ _› with h | ⟨h1, h2⟩ <;> simp_all

/-- Witness for C8_type_rules: concrete instances of the timestamp rule and
the numeric fallthrough. -/
theorem C8_type_rules_witness :
    infer_snowflake_type "created".data [] = "to_timestamp_ntz".data ∧
    infer_snowflake_type "score".data ["str".data] = "to_varchar".data := by
  constructor
  · exact (C8_type_rules "created".data []).1 (by decide)
  · exact (C8_type_rules "score".data ["str".data]).2.2.2.2.2.2
      (by decide) (by decide) (by decide) (by decide) (by decide)

/-! ## Claim C9 -/

/-- Claim C9: the run exits nonzero exactly when some task's terminal status
is `failed`; `no_changes` and `skipped` statuses never produce a nonzero
exit. -/
theorem C9_exit_status : ∀ results : List (String × String),
    (overallExitCode results ≠ 0 ↔ ∃ r ∈ results, r.2 = "failed") ∧
    ((∀ r ∈ results, r.2 = "no_changes" ∨ r.2 = "skipped") →
      overallExitCode results = 0) := by
  intro results
  have hiff : overallExitCode results ≠ 0 ↔ ∃ r ∈ results, r.2 = "failed" := by
    unfold overallExitCode failedCount
    by_cases h : (results.filter (fun r => r.2 = "failed")).length = 0
    · simp only [h, if_pos]
      constructor
      · intro hc; exact absurd rfl hc
      · intro ⟨r, hr, hf⟩ _
        have : r ∈ results.filter (fun r => r.2 = "failed") :=
          List.mem_filter.mpr ⟨hr, by simp [hf]⟩
        rw [List.length_eq_zero] at h
        simp [h] at this
    · simp only [h, if_neg]
      constructor
      · intro _
        have hne : results.filter (fun r => r.2 = "failed") ≠ [] := by
          intro hnil; exact h (by simp [hnil])
        obtain ⟨r, hr⟩ := List.exists_mem_of_ne_nil _ hne
        have := List.mem_filter.mp hr
        exact ⟨r, this.1, by simpa using this.2⟩
      · intro _; exact one_ne_zero
  refine ⟨hiff, fun hall => ?_⟩
  by_contra hc
  obtain ⟨r, hr, hf⟩ := hiff.mp hc
  rcases hall r hr with h | h <;> rw [hf] at h <;> simp at h

/-- Witness for C9_exit_status: a run with only no-op and skipped results
exits 0; a run containing a failed task exits nonzero. -/
theorem C9_exit_status_witness :
    overallExitCode [("helm-apps", "no_changes"), ("data-airflow", "skipped")] = 0 ∧
    overallExitCode [("helm-apps", "success"), ("dbt", "failed")] ≠ 0 := by
  constructor
  · exact (C9_exit_status _).2 (by decide)
  · exact (C9_exit_status [("helm-apps", "success"), ("dbt", "failed")]).1.mpr
      ⟨("dbt", "failed"), by decide, rfl⟩

/-! ## Claim C6 -/

/-- Claim C6: unique-key inference is two-tier.  Tier 1: when an allowlisted
identifier field (here `override_id`) occurs among the lowercased field
names, the field tier returns the surrogate key built from it
(`override_id__sk`, base field `override_id`, surrogate flag set).  Tier 2:
when the field tier returns nothing, the dispatch falls back to the topic
tier, which returns the first match of the fixed ordered substring table and
the generic default `event_id__sk` when nothing matches.  Concrete scenario:
with no identifier fields and topic `audit.action.v1` the inferred unique key
is `audit_id__sk`. -/
theorem C6_unique_key_two_tier :
    (∀ fl, fl ≠ [] → listMem "override_id".data (fl.map pyLower) = true →
      infer_unique_key_from_fields fl =
        some ("override_id__sk".data, "override_id".data, true)) ∧
    (∀ fl tp, infer_unique_key_from_fields fl = none →
      inferUniqueKey fl tp = (infer_unique_key_from_topic tp).1) ∧
    (∀ tp l1 pat l2, topicPatterns = l1 ++ pat :: l2 →
      (∀ q ∈ l1, ¬ (q.1 <:+: pyLower tp)) → pat.1 <:+: pyLower tp →
      infer_unique_key_from_topic tp = (pat.2.1, pat.2.2)) ∧
    (∀ tp, (∀ q ∈ topicPatterns, ¬ (q.1 <:+: pyLower tp)) →
      infer_unique_key_from_topic tp = ("event_id__sk".data, true)) ∧
    inferUniqueKey ["action".data, "user".data] "audit.action.v1".data =
      "audit_id__sk".data ∧
    infer_unique_key_from_topic "audit.action.v1".data =
      ("audit_id__sk".data, true) := by
  refine ⟨?_, ?_, ?_, ?_, by decide, by decide⟩
  · intro fl hne hmem
    unfold infer_unique_key_from_fields uniqueIdPatterns
    rw [if_neg hne]
    simp only [List.find?_cons, hmem]
    rfl
  · intro fl tp h
    unfold inferUniqueKey
    rw [h]
  · intro tp l1 pat l2 hsplit hnone hpat
    unfold infer_unique_key_from_topic
    dsimp only
    rw [hsplit, find?_append_of_none (fun q hq => decide_eq_false (hnone q hq))]
    rw [List.find?_cons_of_pos _ (by simpa using hpat)]
  · intro tp h
    unfold infer_unique_key_from_topic
    dsimp only
    rw [List.find?_eq_none.mpr (fun q hq => by simpa using h q hq)]

/-- Witness for C6_unique_key_two_tier: a field list containing the
allowlisted identifier takes the field tier; a topic matching no substring
takes the generic default. -/
theorem C6_unique_key_witness :
    infer_unique_key_from_fields ["Override_ID".data, "x".data] =
      some ("override_id__sk".data, "override_id".data, true) ∧
    infer_unique_key_from_topic "orders.created.v1".data =
      ("event_id__sk".data, true) := by
  constructor
  · exact C6_unique_key_two_tier.1 _ (by decide) (by decide)
  · exact C6_unique_key_two_tier.2.2.2.1 _ (by decide)

/-! ## Claim C10 -/

theorem topicKey_needs (tp : List Char) :
    (infer_unique_key_from_topic tp).2 = true := by
  unfold infer_unique_key_from_topic
  dsimp only
  cases hf : topicPatterns.find? (fun pat => decide (pat.1 <:+: pyLower tp)) with
  | none => rfl
  | some pat =>
    have hmem := List.mem_of_find?_eq_some hf
    have hall : ∀ q ∈ topicPatterns, q.2.2 = true := by decide
    simpa using hall pat hmem

theorem topicKey_suffix (tp : List Char) :
    "__sk".data.isSuffixOf (infer_unique_key_from_topic tp).1 = true := by
  unfold infer_unique_key_from_topic
  dsimp only
  cases hf : topicPatterns.find? (fun pat => decide (pat.1 <:+: pyLower tp)) with
  | none => decide
  | some pat =>
    have hmem := List.mem_of_find?_eq_some hf
    have hall : ∀ q ∈ topicPatterns, "__sk".data.isSuffixOf q.2.1 = true := by decide
    simpa using hall pat hmem

set_option maxRecDepth 100000 in
/-- Claim C10: every path of unique-key inference returns a key ending in
`__sk` with the needs-surrogate flag true, and consequently every document
`generate_dbt_model` renders contains a surrogate-key expression (an
occurrence of `generate_surrogate_key`), for every topic, field list, field
types and flatten argument. -/
theorem C10_surrogate_never_empty :
    (∀ fl, (infer_unique_key_from_fields fl).all
      (fun r => "__sk".data.isSuffixOf r.1 && r.2.2) = true) ∧
    (∀ tp, "__sk".data.isSuffixOf (infer_unique_key_from_topic tp).1 = true ∧
      (infer_unique_key_from_topic tp).2 = true) ∧
    (∀ tn mn fields tp ft fa,
      "generate_surrogate_key".data <:+: generate_dbt_model tn mn fields tp ft fa) := by
  refine ⟨?_, fun tp => ⟨topicKey_suffix tp, topicKey_needs tp⟩, ?_⟩
  · intro fl
    unfold infer_unique_key_from_fields uniqueIdPatterns
    by_cases hfl : fl = []
    · simp [hfl]
    · rw [if_neg hfl]
      cases hm : listMem "override_id".data (fl.map pyLower) <;>
        (simp [List.find?_cons, hm]; try decide)
  · intro tn mn fields tp ft fa
    unfold generate_dbt_model
    by_cases hc : listMem "override_id".data ((fieldListOf fields).map pyLower) = true
    · simp only [hc, if_true, List.append_assoc]
      refine infix_append_left _ (infix_append_left _ (infix_append_left _
        (infix_append_left _ (infix_append_left _ (infix_append_right _ ?_)))))
      decide
    · rw [Bool.not_eq_true] at hc
      simp only [hc, Bool.false_eq_true, if_false, List.append_assoc]
      rw [topicKey_needs tp]
      simp only [if_true, List.append_assoc]
      refine infix_append_left _ (infix_append_left _ (infix_append_left _
        (infix_append_left _ (infix_append_left _ (infix_append_right _ ?_)))))
      decide

/-! ## Round-trip lemmas for the topics section (claims C2, C3, C7) -/

/-- A well-formed section entry: nonempty, no newline, no surrounding
whitespace, no trailing comma.  Every entry the scripts themselves render has
this shape, and the parse functions produce such values for ordinary
documents. -/
def entryOk (t : List Char) : Bool :=
  !t.isEmpty && !decide ('\n' ∈ t) && !pySpace (t.headD ' ') &&
    !pySpace (t.getLastD ' ') && !decide (t.getLastD ' ' = ',')

theorem dropWhile_append_of_all {p : α → Bool} :
    ∀ {w t : List α}, (∀ c ∈ w, p c = true) →
      (w ++ t).dropWhile p = t.dropWhile p
  | [], t, _ => rfl
  | a :: w, t, h => by
    have ha := h a (List.mem_cons_self a w)
    simp only [List.cons_append, List.dropWhile_cons, ha, if_true]
    exact dropWhile_append_of_all fun c hc => h c (List.mem_cons_of_mem a hc)

theorem dropWhile_append_of_ne_nil {p : α → Bool} :
    ∀ {t : List α} (w : List α), t.dropWhile p ≠ [] →
      (t ++ w).dropWhile p = t.dropWhile p ++ w
  | [], w, h => absurd rfl h
  | a :: t, w, h => by
    cases ha : p a with
    | true =>
      simp only [List.cons_append, List.dropWhile_cons, ha, if_true] at h ⊢
      exact dropWhile_append_of_ne_nil w h
    | false => simp [List.dropWhile_cons, ha]

theorem pyStrip_all_space {l : List Char} (h : ∀ c ∈ l, pySpace c = true) :
    pyStrip l = [] := by
  unfold pyStrip
  rw [List.dropWhile_eq_nil_iff.mpr fun c hc => h c hc]
  rfl

theorem pyStrip_prepend_space {w t : List Char}
    (hw : ∀ c ∈ w, pySpace c = true) : pyStrip (w ++ t) = pyStrip t := by
  unfold pyStrip
  rw [dropWhile_append_of_all hw]

theorem pyStrip_append_space {t w : List Char}
    (hw : ∀ c ∈ w, pySpace c = true) : pyStrip (t ++ w) = pyStrip t := by
  by_cases h : t.dropWhile pySpace = []
  · have ht : ∀ c ∈ t, pySpace c = true := List.dropWhile_eq_nil_iff.mp h
    rw [pyStrip_all_space fun c hc => (List.mem_append.mp hc).elim (ht c) (hw c),
      pyStrip_all_space ht]
  · unfold pyStrip
    rw [dropWhile_append_of_ne_nil w h, List.reverse_append,
      dropWhile_append_of_all fun c hc => hw c (List.mem_reverse.mp hc)]

theorem pyStrip_eq_self {t : List Char} (ht : t ≠ [])
    (h1 : pySpace (t.headD ' ') = false)
    (h2 : pySpace (t.getLastD ' ') = false) : pyStrip t = t := by
  obtain ⟨a, t', rfl⟩ := List.exists_cons_of_ne_nil ht
  simp only [List.headD_cons] at h1
  obtain ⟨b, r, hr⟩ := List.exists_cons_of_ne_nil
    (l := (a :: t').reverse) (by simp)
  have hb : (a :: t').getLastD ' ' = b := by
    have h3 : (a :: t').reverse.head? = some b := by rw [hr]; rfl
    rw [List.head?_reverse] at h3
    simp [List.getLastD_eq_getLast?, h3]
  rw [hb] at h2
  unfold pyStrip
  rw [List.dropWhile_cons_of_neg (by simp [h1]), hr,
    List.dropWhile_cons_of_neg (by simp [h2]), ← hr, List.reverse_reverse]

theorem rstripComma_append_comma (t : List Char) :
    rstripComma (t ++ [',']) = rstripComma t := by
  unfold rstripComma
  simp [List.dropWhile_cons]

theorem rstripComma_eq_self {t : List Char}
    (h : decide (t.getLastD ' ' = ',') = false) : rstripComma t = t := by
  rcases List.eq_nil_or_concat t with rfl | ⟨r, b, rfl⟩
  · rfl
  · rw [List.concat_eq_append] at h ⊢
    have hb : (r ++ [b]).getLastD ' ' = b := by
      simp [List.getLastD_eq_getLast?]
    rw [hb] at h
    simp only [decide_eq_false_iff_not] at h
    unfold rstripComma
    rw [List.reverse_append]
    simp [List.dropWhile_cons, h]

theorem splitNl_ne_nil : ∀ s : List Char, splitNl s ≠ []
  | [] => by simp [splitNl]
  | c :: cs => by
    unfold splitNl
    rcases h : splitNl cs with _ | ⟨h', t'⟩
    · exact absurd h (splitNl_ne_nil cs)
    · cases hc : decide (c = '\n') <;> simp

theorem splitNl_cons_of_ne (c : Char) (cs : List Char)
    (hc : decide (c = '\n') = false) :
    splitNl (c :: cs) = (c :: (splitNl cs).headD []) :: (splitNl cs).tail := by
  rcases h : splitNl cs with _ | ⟨h', t'⟩
  · exact absurd h (splitNl_ne_nil cs)
  · conv_lhs => rw [splitNl]
    rw [h]
    simp [hc]

theorem splitNl_append_no_nl :
    ∀ {a : List Char} (s : List Char), (∀ c ∈ a, ¬c = '\n') →
      splitNl (a ++ s) = (a ++ (splitNl s).headD []) :: (splitNl s).tail
  | [], s, _ => by
    rcases h : splitNl s with _ | ⟨h', t'⟩
    · exact absurd h (splitNl_ne_nil s)
    · simp [h]
  | c :: a, s, h => by
    have hc : decide (c = '\n') = false :=
      decide_eq_false (h c (List.mem_cons_self c a))
    have ih := splitNl_append_no_nl s fun x hx => h x (List.mem_cons_of_mem c hx)
    simp only [List.cons_append]
    rw [splitNl_cons_of_ne c (a ++ s) hc, ih]
    simp

theorem splitNl_no_nl {a : List Char} (h : ∀ c ∈ a, ¬c = '\n') :
    splitNl a = [a] := by
  have := splitNl_append_no_nl (a := a) [] h
  simpa [splitNl] using this

theorem splitNl_cons_nl (s : List Char) : splitNl ('\n' :: s) = [] :: splitNl s := by
  rcases h : splitNl s with _ | ⟨h', t'⟩
  · exact absurd h (splitNl_ne_nil s)
  · conv_lhs => rw [splitNl]
    rw [h]
    rfl

theorem splitNl_append_nl {a : List Char} (s : List Char)
    (h : ∀ c ∈ a, ¬c = '\n') : splitNl (a ++ '\n' :: s) = a :: splitNl s := by
  rw [splitNl_append_no_nl ('\n' :: s) h, splitNl_cons_nl]
  simp

theorem headD_append {t : List Char} (w : List Char) (d : Char) (h : t ≠ []) :
    (t ++ w).headD d = t.headD d := by
  cases t with
  | nil => exact absurd rfl h
  | cons a t => rfl

theorem getLastD_append (t : List Char) {w : List Char} (d : Char) (h : w ≠ []) :
    (t ++ w).getLastD d = w.getLastD d := by
  rw [List.getLastD_eq_getLast?, List.getLastD_eq_getLast?,
    List.getLast?_append_of_ne_nil _ h]

theorem intercalate_nil (sep : List Char) : List.intercalate sep [] = [] := by
  simp [List.intercalate]

theorem intercalate_single (sep x : List Char) : List.intercalate sep [x] = x := by
  simp [List.intercalate]

theorem intercalate_cons₂ (sep x y : List Char) (xs : List (List Char)) :
    List.intercalate sep (x :: y :: xs) = x ++ sep ++ List.intercalate sep (y :: xs) := by
  simp [List.intercalate, List.intersperse]

/-- The per-segment transform of the topics parse:
`t.strip().rstrip(',')`, kept only when `t.strip()` is nonempty. -/
def parseSeg (seg : List Char) : Option (List Char) :=
  let t := pyStrip seg
  if t = [] then none else some (rstripComma t)

theorem parseTopics_eq (body : List Char) :
    parseTopics body = (splitNl (pyStrip body)).filterMap parseSeg := rfl

theorem entryOk_props {t : List Char} (h : entryOk t = true) :
    t ≠ [] ∧ (∀ c ∈ t, ¬c = '\n') ∧ pySpace (t.headD ' ') = false ∧
      pySpace (t.getLastD ' ') = false ∧ decide (t.getLastD ' ' = ',') = false := by
  simp only [entryOk, Bool.and_eq_true, Bool.not_eq_true',
    decide_eq_false_iff_not] at h
  obtain ⟨⟨⟨⟨h1, h2⟩, h3⟩, h4⟩, h5⟩ := h
  refine ⟨fun hnil => ?_, fun c hc hcn => h2 (hcn ▸ hc), h3, h4, decide_eq_false h5⟩
  rw [hnil] at h1
  simp at h1

theorem parseSeg_entry_comma {t : List Char} (h : entryOk t = true) :
    parseSeg (t ++ [',']) = some t := by
  obtain ⟨h1, _, h3, _, h5⟩ := entryOk_props h
  unfold parseSeg
  rw [pyStrip_eq_self (by simp) (by rwa [headD_append _ _ h1])
    (by rw [getLastD_append _ _ (by simp)]; decide)]
  rw [if_neg (by simp), rstripComma_append_comma, rstripComma_eq_self h5]

theorem parseSeg_entry_plain {t : List Char} (h : entryOk t = true) :
    parseSeg t = some t := by
  obtain ⟨h1, _, h3, h4, h5⟩ := entryOk_props h
  unfold parseSeg
  rw [pyStrip_eq_self h1 h3 h4, if_neg h1, rstripComma_eq_self h5]

theorem parseSeg_prepend_sp8 (seg : List Char) :
    parseSeg ("        ".data ++ seg) = parseSeg seg := by
  unfold parseSeg
  rw [pyStrip_prepend_space (by decide)]

theorem filterMap_splitNl_sp8 (s : List Char) :
    (splitNl ("        ".data ++ s)).filterMap parseSeg =
      (splitNl s).filterMap parseSeg := by
  rw [splitNl_append_no_nl s (by decide)]
  rcases h : splitNl s with _ | ⟨h', t'⟩
  · exact absurd h (splitNl_ne_nil s)
  · simp only [h, List.headD_cons, List.tail_cons, List.filterMap_cons]
    rw [parseSeg_prepend_sp8]

theorem parse_intercalate : ∀ l : List (List Char), l ≠ [] →
    (∀ t ∈ l, entryOk t = true) →
    (splitNl (List.intercalate ",\n        ".data l)).filterMap parseSeg = l
  | [t], _, hok => by
    have h := hok t (List.mem_cons_self t [])
    obtain ⟨h1, h2, _, _, _⟩ := entryOk_props h
    rw [intercalate_single, splitNl_no_nl h2]
    simp [parseSeg_entry_plain h]
  | t :: t2 :: rest, _, hok => by
    have ht := hok t (List.mem_cons_self t _)
    obtain ⟨h1, h2, _, _, _⟩ := entryOk_props ht
    have ih := parse_intercalate (t2 :: rest) (by simp)
      (fun x hx => hok x (List.mem_cons_of_mem t hx))
    rw [intercalate_cons₂]
    have hre : t ++ ",\n        ".data ++
        List.intercalate ",\n        ".data (t2 :: rest) =
        (t ++ [',']) ++ '\n' ::
          ("        ".data ++ List.intercalate ",\n        ".data (t2 :: rest)) := by
      have hsep : ",\n        ".data = [','] ++ '\n' :: "        ".data := by decide
      rw [hsep]
      simp [List.append_assoc]
    rw [hre, splitNl_append_nl _ (by
      intro c hc
      rcases List.mem_append.mp hc with hc | hc
      · exact h2 c hc
      · simp at hc; simp [hc])]
    simp only [List.filterMap_cons, parseSeg_entry_comma ht]
    rw [filterMap_splitNl_sp8, ih]

/-- The round trip at the heart of idempotency: re-parsing a section the
script itself rendered gives back exactly the same entry list, provided every
entry is well formed. -/
theorem parse_render (l : List (List Char)) (hl : ∀ t ∈ l, entryOk t = true) :
    parseTopics (renderTopics l) = l := by
  rcases l with _ | ⟨t, rest⟩
  · decide
  · unfold renderTopics
    rw [parseTopics_eq]
    have hI := parse_intercalate (t :: rest) (by simp) hl
    have ht := hl t (List.mem_cons_self t _)
    obtain ⟨h1, _, h3, _, _⟩ := entryOk_props ht
    have hIne : List.intercalate ",\n        ".data (t :: rest) ≠ [] := by
      rcases rest with _ | ⟨y, ys⟩
      · rwa [intercalate_single]
      · rw [intercalate_cons₂]
        simp [h1]
    have hstrip : pyStrip ("        ".data ++
        List.intercalate ",\n        ".data (t :: rest) ++ "\n".data) =
        pyStrip (List.intercalate ",\n        ".data (t :: rest)) := by
      rw [List.append_assoc, pyStrip_prepend_space (by decide),
        pyStrip_append_space (by decide)]
    rw [hstrip, pyStrip_eq_self hIne ?_ ?_]
    · exact hI
    · rcases rest with _ | ⟨y, ys⟩
      · rwa [intercalate_single]
      · rw [intercalate_cons₂, List.append_assoc, headD_append _ _ h1]
        exact h3
    · have hlast : ∀ (l : List (List Char)), l ≠ [] →
          (∀ t ∈ l, entryOk t = true) →
          pySpace ((List.intercalate ",\n        ".data l).getLastD ' ') = false := by
        intro l
        induction l with
        | nil => intro h; exact absurd rfl h
        | cons x xs ihx =>
          intro _ hok
          rcases xs with _ | ⟨y, ys⟩
          · rw [intercalate_single]
            exact (entryOk_props (hok x (List.mem_cons_self x _))).2.2.2.1
          · rw [intercalate_cons₂]
            have hyne : List.intercalate ",\n        ".data (y :: ys) ≠ [] := by
              rcases ys with _ | ⟨z, zs⟩
              · rw [intercalate_single]
                exact (entryOk_props (hok y (by simp))).1
              · rw [intercalate_cons₂]
                simp [(entryOk_props (hok y (by simp))).1]
            rw [List.append_assoc, getLastD_append _ _ (by simp [hyne])]
            rw [getLastD_append _ _ hyne]
            exact ihx (by simp) (fun z hz => hok z (List.mem_cons_of_mem x hz))
      exact hlast (t :: rest) (by simp) hl

/-! ## Claim C2 -/

/-- Claim C2: idempotence of the step1 patch.  For a located document whose
parsed entries are well formed and do not yet contain the topic: the patched
document re-parses so that `check_topic_exists` reports the topic as already
present; a second patch call on the result is byte-identical to the first
result; and whenever the guard reports the entry present the surface leaves
the document completely unmodified. -/
theorem C2_idempotent (pre body : List Char) (rest : RestPart)
    (topic : List Char) (realtime : Bool)
    (hentries : ∀ t ∈ parseTopics body, entryOk t = true)
    (htopic : entryOk topic = true)
    (hnew : topic ∉ parseTopics body) :
    step1_patch ⟨pre, body, rest⟩ topic realtime =
      docText ⟨pre, renderTopics (insertEntry topic (parseTopics body)),
        .plain (if realtime then patchRest topic rest else restText rest)⟩ ∧
    check_topic_exists ⟨pre, renderTopics (insertEntry topic (parseTopics body)),
        .plain (if realtime then patchRest topic rest else restText rest)⟩
        topic = true ∧
    step1_patch ⟨pre, renderTopics (insertEntry topic (parseTopics body)),
        .plain (if realtime then patchRest topic rest else restText rest)⟩
        topic realtime =
      docText ⟨pre, renderTopics (insertEntry topic (parseTopics body)),
        .plain (if realtime then patchRest topic rest else restText rest)⟩ ∧
    ∀ d0 : HelmDoc, check_topic_exists d0 topic = true →
      step1_patch d0 topic realtime = docText d0 := by
  have hguard : check_topic_exists ⟨pre, body, rest⟩ topic = false := by
    unfold check_topic_exists
    exact Bool.eq_false_iff.mpr fun habs => hnew (listMem_iff.mp habs)
  have hall : ∀ x ∈ insertEntry topic (parseTopics body), entryOk x = true :=
    fun x hx => (mem_of_mem_insertAt hx).elim (fun he => he ▸ htopic) (hentries x)
  have hparse : parseTopics (renderTopics (insertEntry topic (parseTopics body))) =
      insertEntry topic (parseTopics body) := parse_render _ hall
  have hcheck : check_topic_exists
      ⟨pre, renderTopics (insertEntry topic (parseTopics body)),
        .plain (if realtime then patchRest topic rest else restText rest)⟩
      topic = true := by
    unfold check_topic_exists
    rw [hparse]
    exact listMem_iff.mpr (mem_insertAt_self _ _ _)
  refine ⟨?_, hcheck, ?_, fun d0 h0 => ?_⟩
  · unfold step1_patch
    rw [hguard]
    rfl
  · unfold step1_patch
    rw [hcheck]
    rfl
  · unfold step1_patch
    rw [h0]
    rfl

/-- Witness for C2_idempotent on a concrete two-entry document. -/
theorem C2_idempotent_witness :
    check_topic_exists ⟨"p".data,
      renderTopics (insertEntry "bravo".data
        (parseTopics "        alpha,\n        charlie\n".data)),
      .plain "r".data⟩ "bravo".data = true ∧
    step1_patch ⟨"p".data,
      renderTopics (insertEntry "bravo".data
        (parseTopics "        alpha,\n        charlie\n".data)),
      .plain "r".data⟩ "bravo".data false =
    docText ⟨"p".data,
      renderTopics (insertEntry "bravo".data
        (parseTopics "        alpha,\n        charlie\n".data)),
      .plain "r".data⟩ := by
  have h := C2_idempotent "p".data "        alpha,\n        charlie\n".data
    (.plain "r".data) "bravo".data false (by decide) (by decide) (by decide)
  exact ⟨h.2.1, h.2.2.1⟩

/-! ## Step2 block structure (claims C1, C3) -/

/-- One `StreamTaskConfig(...)` block of the configs list: the header line
containing `StreamTaskConfig(`, the lines before the `table="..."` line, the
table line itself with its captured table name, and the remaining lines of
the block (the last one ending, after stripping, in `),`). -/
structure STCBlock where
  hdr : List Char
  bpre : List (List Char)
  tline : List Char
  tbl : List Char
  bpost : List (List Char)
  deriving DecidableEq

def blockLines (b : STCBlock) : List (List Char) :=
  b.hdr :: (b.bpre ++ b.tline :: b.bpost)

def blockLast (b : STCBlock) : List Char := b.bpost.getLastD b.tline

/-- Well-formedness of one block: the marker only on the header, exactly one
table line, and a closing line. -/
def WFBlock (b : STCBlock) : Prop :=
  hasSTC b.hdr = true ∧ findTable b.hdr = none ∧
  (∀ l ∈ b.bpre, findTable l = none ∧ hasSTC l = false) ∧
  findTable b.tline = some b.tbl ∧ hasSTC b.tline = false ∧
  (∀ l ∈ b.bpost, findTable l = none ∧ hasSTC l = false) ∧
  endsClose (blockLast b) = true

/-- A well-formed configs section: optional leading blank lines followed by
at least one block. -/
def WF (lead : List (List Char)) (bs : List STCBlock) : Prop :=
  (∀ l ∈ lead, isBlankLine l = true) ∧ bs ≠ [] ∧ ∀ b ∈ bs, WFBlock b

instance (b : STCBlock) : Decidable (WFBlock b) := by
  unfold WFBlock
  infer_instance

instance (lead : List (List Char)) (bs : List STCBlock) : Decidable (WF lead bs) := by
  unfold WF
  infer_instance

def linesOf (lead : List (List Char)) (bs : List STCBlock) : List (List Char) :=
  lead ++ bs.flatMap blockLines

def blocksTables (bs : List STCBlock) : List (List Char) := bs.map (·.tbl)

theorem findTable_cons (c : Char) (cs : List Char) :
    findTable (c :: cs) =
      if tableLit.isPrefixOf (c :: cs) then
        let rest := (c :: cs).drop tableLit.length
        let inner := rest.takeWhile (· ≠ '"')
        if inner ≠ [] ∧ inner.length < rest.length then some inner
        else findTable cs
      else findTable cs := rfl

theorem findTable_eq_none : ∀ {l : List Char}, 'b' ∉ l → findTable l = none
  | [], _ => rfl
  | c :: cs, h => by
    rw [findTable_cons]
    have hp : tableLit.isPrefixOf (c :: cs) = false := by
      apply Bool.eq_false_iff.mpr
      intro habs
      exact h (((List.isPrefixOf_iff_prefix).mp habs).subset (by decide))
    rw [hp, if_neg (by simp)]
    exact findTable_eq_none fun hb => h (List.mem_cons_of_mem c hb)

theorem findTable_ws_append : ∀ {ws : List Char} (l : List Char),
    (∀ c ∈ ws, pySpace c = true) → findTable (ws ++ l) = findTable l
  | [], l, _ => rfl
  | c :: ws, l, h => by
    simp only [List.cons_append]
    rw [findTable_cons]
    have hc : pySpace c = true := h c (List.mem_cons_self c ws)
    have hp : tableLit.isPrefixOf (c :: (ws ++ l)) = false := by
      apply Bool.eq_false_iff.mpr
      intro habs
      have hpre := (List.isPrefixOf_iff_prefix).mp habs
      have : 't' = c := (List.cons_prefix_cons.mp hpre).1
      rw [← this] at hc
      exact absurd hc (by decide)
    rw [hp, if_neg (by simp)]
    exact findTable_ws_append l fun x hx => h x (List.mem_cons_of_mem c hx)

theorem takeWhile_no_quote : ∀ {t : List Char} (r : List Char), '"' ∉ t →
    (t ++ '"' :: r).takeWhile (· ≠ '"') = t
  | [], r, _ => by simp [List.takeWhile_cons]
  | c :: t, r, h => by
    have hc : (c ≠ '"') = True := by
      simp only [ne_eq, eq_iff_iff, iff_true]
      exact fun he => h (he ▸ List.mem_cons_self c t)
    simp only [List.cons_append, List.takeWhile_cons]
    rw [takeWhile_no_quote r fun hb => h (List.mem_cons_of_mem c hb)]
    simp [hc]

theorem findTable_at_match (t r : List Char) (ht : t ≠ []) (hq : '"' ∉ t) :
    findTable (tableLit ++ (t ++ '"' :: r)) = some t := by
  have hshape : tableLit ++ (t ++ '"' :: r) =
      't' :: ("able=\"".data ++ (t ++ '"' :: r)) := rfl
  rw [hshape, findTable_cons, if_pos ?hp]
  case hp =>
    rw [List.isPrefixOf_iff_prefix, ← hshape]
    exact List.prefix_append _ _
  have hdrop : ('t' :: ("able=\"".data ++ (t ++ '"' :: r))).drop tableLit.length =
      t ++ '"' :: r := rfl
  dsimp only
  rw [hdrop, takeWhile_no_quote r hq, if_pos ⟨ht, by simp⟩]

theorem not_infix_of_not_mem {p l : List Char} (c : Char) (hc : c ∈ p)
    (h : c ∉ l) : ¬(p <:+: l) := fun hi => h (hi.sublist.subset hc)

theorem hasSTC_eq_false_of_no_f {l : List Char} (h : 'f' ∉ l) :
    hasSTC l = false := by
  unfold hasSTC
  exact decide_eq_false (not_infix_of_not_mem 'f' (by decide) h)

theorem mem_dropWhile_of_neg {p : α → Bool} {c : α} (hc : p c = false) :
    ∀ {l : List α}, c ∈ l → c ∈ l.dropWhile p
  | a :: l, hm => by
    cases ha : p a with
    | false => rwa [List.dropWhile_cons_of_neg (by simp [ha])]
    | true =>
      rw [List.dropWhile_cons_of_pos (by simp [ha])]
      rcases List.mem_cons.mp hm with rfl | hm2
      · rw [ha] at hc; exact absurd hc (by simp)
      · exact mem_dropWhile_of_neg hc hm2

theorem blank_all_space {l : List Char} (h : isBlankLine l = true) :
    ∀ c ∈ l, pySpace c = true := by
  have hs : pyStrip l = [] := of_decide_eq_true h
  intro c hcm
  by_contra hcn
  have hcn2 : pySpace c = false := Bool.eq_false_iff.mpr hcn
  have h1 : c ∈ l.dropWhile pySpace := mem_dropWhile_of_neg hcn2 hcm
  have h2 : c ∈ (l.dropWhile pySpace).reverse.dropWhile pySpace :=
    mem_dropWhile_of_neg hcn2 (List.mem_reverse.mpr h1)
  rw [show (l.dropWhile pySpace).reverse.dropWhile pySpace = [] by
    have h3 : ((l.dropWhile pySpace).reverse.dropWhile pySpace).reverse = [] := hs
    simpa using h3] at h2
  exact absurd h2 (List.not_mem_nil c)

theorem blank_findTable {l : List Char} (h : isBlankLine l = true) :
    findTable l = none :=
  findTable_eq_none fun hb => by
    have := blank_all_space h 'b' hb
    exact absurd this (by decide)

theorem blank_hasSTC {l : List Char} (h : isBlankLine l = true) :
    hasSTC l = false :=
  hasSTC_eq_false_of_no_f fun hb => by
    have := blank_all_space h 'f' hb
    exact absurd this (by decide)

theorem endsClose_not_blank {l : List Char} (h : endsClose l = true) :
    isBlankLine l = false := by
  apply Bool.eq_false_iff.mpr
  intro hb
  have hs : pyStrip l = [] := of_decide_eq_true hb
  have hsf : "),".data <:+ pyStrip l := (List.isSuffixOf_iff_suffix).mp h
  rw [hs] at hsf
  have := hsf.sublist.subset (a := ')') (by decide)
  exact absurd this (List.not_mem_nil _)

theorem findFirstIdx_cons (p : α → Bool) (a : α) (l : List α) :
    findFirstIdx p (a :: l) =
      if p a then some 0 else (findFirstIdx p l).map (· + 1) := rfl

theorem findLastIdx_cons (p : α → Bool) (a : α) (l : List α) :
    findLastIdx p (a :: l) =
      match findLastIdx p l with
      | some j => some (j + 1)
      | none => if p a then some 0 else none := rfl

theorem findFirstIdx_eq_none {p : α → Bool} :
    ∀ {l : List α}, (∀ a ∈ l, p a = false) → findFirstIdx p l = none
  | [], _ => rfl
  | a :: l, h => by
    rw [findFirstIdx_cons, h a (List.mem_cons_self a l), if_neg (by simp),
      findFirstIdx_eq_none fun x hx => h x (List.mem_cons_of_mem a hx)]
    rfl

theorem findFirstIdx_append_none {p : α → Bool} :
    ∀ {A : List α} (B : List α), (∀ a ∈ A, p a = false) →
      findFirstIdx p (A ++ B) = (findFirstIdx p B).map (· + A.length)
  | [], B, _ => by simp
  | a :: A, B, h => by
    rw [List.cons_append, findFirstIdx_cons, h a (List.mem_cons_self a A),
      if_neg (by simp),
      findFirstIdx_append_none B fun x hx => h x (List.mem_cons_of_mem a hx)]
    cases findFirstIdx p B <;> simp +arith

theorem findFirstIdx_cons_pos {p : α → Bool} {a : α} (l : List α)
    (h : p a = true) : findFirstIdx p (a :: l) = some 0 := by
  rw [findFirstIdx_cons, h, if_pos rfl]

theorem findLastIdx_eq_none {p : α → Bool} :
    ∀ {l : List α}, (∀ a ∈ l, p a = false) → findLastIdx p l = none
  | [], _ => rfl
  | a :: l, h => by
    rw [findLastIdx_cons,
      findLastIdx_eq_none fun x hx => h x (List.mem_cons_of_mem a hx),
      h a (List.mem_cons_self a l)]
    simp

theorem findLastIdx_append_none {p : α → Bool} :
    ∀ (A : List α) {B : List α}, (∀ b ∈ B, p b = false) →
      findLastIdx p (A ++ B) = findLastIdx p A
  | [], B, h => by
    rw [List.nil_append, findLastIdx_eq_none h]
    rfl
  | a :: A, B, h => by
    rw [List.cons_append, findLastIdx_cons, findLastIdx_append_none A h,
      findLastIdx_cons]

theorem findLastIdx_append_last {p : α → Bool} :
    ∀ (A : List α) {y : α}, p y = true →
      findLastIdx p (A ++ [y]) = some A.length
  | [], y, h => by
    rw [List.nil_append, findLastIdx_cons]
    simp [findLastIdx, h]
  | a :: A, y, h => by
    rw [List.cons_append, findLastIdx_cons, findLastIdx_append_last A h]
    simp +arith

theorem insertIndexBy_all_false {gt : α → Bool} {l : List α}
    (h : ¬insertIndexBy gt l < l.length) : ∀ x ∈ l, gt x = false := by
  intro x hx
  obtain ⟨j, rfl⟩ := List.mem_iff_get.mp hx
  exact insertIndexBy_before gt l j.1 j.isLt
    (lt_of_lt_of_le j.isLt (Nat.le_of_not_lt h))

/-- Tables extracted from well-formed structures. -/
theorem extractTables_append (A B : List (List Char)) :
    extractTables (A ++ B) = extractTables A ++ extractTables B :=
  List.filterMap_append A B findTable

theorem extractTables_blank {lead : List (List Char)}
    (h : ∀ l ∈ lead, isBlankLine l = true) : extractTables lead = [] :=
  List.filterMap_eq_nil_iff.mpr fun l hl => blank_findTable (h l hl)

theorem extractTables_block {b : STCBlock} (hb : WFBlock b) :
    extractTables (blockLines b) = [b.tbl] := by
  obtain ⟨_, h2, h3, h4, _, h6, _⟩ := hb
  unfold extractTables blockLines
  simp only [List.filterMap_cons, h2, List.filterMap_append, h4]
  rw [List.filterMap_eq_nil_iff.mpr fun l hl => (h3 l hl).1,
    List.filterMap_eq_nil_iff.mpr fun l hl => (h6 l hl).1]
  rfl

theorem extractTables_flat : ∀ {bs : List STCBlock},
    (∀ b ∈ bs, WFBlock b) →
      extractTables (bs.flatMap blockLines) = blocksTables bs
  | [], _ => rfl
  | b :: bs, h => by
    rw [List.flatMap_cons, extractTables_append,
      extractTables_block (h b (List.mem_cons_self b bs)),
      extractTables_flat fun x hx => h x (List.mem_cons_of_mem b hx)]
    rfl

theorem detectIndent_spaces (lines : List (List Char)) :
    ∀ c ∈ detectIndent lines, pySpace c = true := by
  unfold detectIndent
  cases hf : lines.find? hasSTC with
  | none => decide
  | some l =>
    dsimp only
    by_cases hw : l.takeWhile pySpace = []
    · rw [hw]
      simp only [if_pos rfl]
      decide
    · rw [if_neg hw]
      intro c hc
      exact List.mem_takeWhile_imp hc

theorem extractTables_entry {indent t : List Char}
    (hind : ∀ c ∈ indent, pySpace c = true) (ht : t ≠ []) (hq : '"' ∉ t) :
    extractTables (entryLines indent t) = [t] := by
  unfold extractTables entryLines
  have h1 : findTable (indent ++ "StreamTaskConfig(".data) = none := by
    rw [findTable_ws_append _ hind]
    exact findTable_eq_none (by decide)
  have h2 : findTable (indent ++ "    table=\"".data ++ t ++ "\",".data) =
      some t := by
    have hsh : indent ++ "    table=\"".data ++ t ++ "\",".data =
        (indent ++ "    ".data) ++ (tableLit ++ (t ++ '"' :: [','])) := by
      have : "    table=\"".data = "    ".data ++ tableLit := rfl
      rw [this]
      simp [List.append_assoc]
    rw [hsh, findTable_ws_append _ (fun c hc => by
        rcases List.mem_append.mp hc with hc | hc
        · exact hind c hc
        · simp at hc; subst hc; decide),
      findTable_at_match t [','] ht hq]
  have h3 : findTable
      (indent ++ "    warehouse=\"LOADER_PRODUCTION_STREAMING\",".data) = none := by
    rw [findTable_ws_append _ hind]
    exact findTable_eq_none (by decide)
  have h4 : findTable (indent ++ "),".data) = none := by
    rw [findTable_ws_append _ hind]
    exact findTable_eq_none (by decide)
  simp only [List.filterMap_cons, h1, h2, h3, h4]
  rfl

theorem tableGt_block_false {t : List Char} {b : STCBlock} (hb : WFBlock b)
    (hlt : pyLt t b.tbl = false) : ∀ l ∈ blockLines b, tableGt t l = false := by
  obtain ⟨_, h2, h3, h4, _, h6, _⟩ := hb
  intro l hl
  unfold blockLines at hl
  unfold tableGt
  rcases List.mem_cons.mp hl with rfl | hl
  · rw [h2]
  · rcases List.mem_append.mp hl with hl | hl
    · rw [(h3 l hl).1]
    · rcases List.mem_cons.mp hl with rfl | hl
      · rw [h4]; exact hlt
      · rw [(h6 l hl).1]

theorem hasSTC_block_false {b : STCBlock} (hb : WFBlock b) :
    ∀ l ∈ b.bpre ++ [b.tline], hasSTC l = false := by
  obtain ⟨_, _, h3, _, h5, _, _⟩ := hb
  intro l hl
  rcases List.mem_append.mp hl with hl | hl
  · exact (h3 l hl).2
  · simp only [List.mem_singleton] at hl
    subst hl
    exact h5

theorem findFirstIdx_block_pos {t : List Char} {b : STCBlock} (hb : WFBlock b)
    (hlt : pyLt t b.tbl = true) (R : List (List Char)) :
    findFirstIdx (tableGt t) (blockLines b ++ R) =
      some (b.bpre.length + 1) := by
  obtain ⟨_, h2, h3, h4, _, _, _⟩ := hb
  have hshape : blockLines b ++ R =
      b.hdr :: (b.bpre ++ (b.tline :: (b.bpost ++ R))) := by
    unfold blockLines
    simp [List.append_assoc]
  rw [hshape, findFirstIdx_cons, show tableGt t b.hdr = false by
      unfold tableGt; rw [h2], if_neg (by simp),
    findFirstIdx_append_none _ (fun l hl => by
      unfold tableGt; rw [(h3 l hl).1]),
    findFirstIdx_cons_pos _ (by unfold tableGt; rw [h4]; exact hlt)]
  simp

theorem tableGt_flat_false {t : List Char} {bs : List STCBlock}
    (hWF : ∀ b ∈ bs, WFBlock b) (h : ∀ b ∈ bs, pyLt t b.tbl = false) :
    ∀ l ∈ bs.flatMap blockLines, tableGt t l = false := by
  intro l hl
  obtain ⟨b, hbm, hlb⟩ := List.mem_flatMap.mp hl
  exact tableGt_block_false (hWF b hbm) (h b hbm) l hlb

theorem blank_tableGt {t l : List Char} (h : isBlankLine l = true) :
    tableGt t l = false := by
  unfold tableGt
  rw [blank_findTable h]

theorem getLast_cons_eq_getLastD (a : α) :
    ∀ l : List α, (a :: l).getLast (by simp) = l.getLastD a
  | [] => rfl
  | b :: l => by
    rw [List.getLast_cons (by simp), List.getLastD_cons]
    exact getLast_cons_eq_getLastD b l

theorem flat_ends_close : ∀ {bs : List STCBlock}, bs ≠ [] →
    (∀ b ∈ bs, WFBlock b) →
    ∃ Z L, bs.flatMap blockLines = Z ++ [L] ∧ endsClose L = true
  | [b], _, h => by
    have hb := h b (List.mem_cons_self b [])
    have hM : b.tline :: b.bpost =
        (b.tline :: b.bpost).dropLast ++ [(b.tline :: b.bpost).getLast (by simp)] :=
      (List.dropLast_append_getLast (by simp)).symm
    refine ⟨b.hdr :: (b.bpre ++ (b.tline :: b.bpost).dropLast), blockLast b, ?_, hb.2.2.2.2.2.2⟩
    have hL : (b.tline :: b.bpost).getLast (by simp) = blockLast b :=
      getLast_cons_eq_getLastD b.tline b.bpost
    rw [List.flatMap_cons, List.flatMap_nil, List.append_nil]
    unfold blockLines
    rw [← hL]
    conv_lhs => rw [hM]
    simp [List.append_assoc]
  | b :: b2 :: bs, _, h => by
    obtain ⟨Z, L, hZ, hL⟩ := flat_ends_close
      (show b2 :: bs ≠ [] by simp)
      (fun x hx => h x (List.mem_cons_of_mem b hx))
    refine ⟨blockLines b ++ Z, L, ?_, hL⟩
    rw [List.flatMap_cons, hZ, List.append_assoc]

theorem insertIndexBy_take_false (gt : α → Bool) :
    ∀ l : List α, ∀ x ∈ l.take (insertIndexBy gt l), gt x = false
  | [], x, hx => by simp at hx
  | e :: es, x, hx => by
    by_cases hg : gt e
    · simp [insertIndexBy, hg] at hx
    · rw [show insertIndexBy gt (e :: es) = insertIndexBy gt es + 1 by
        simp [insertIndexBy, hg], List.take_succ_cons] at hx
      rcases List.mem_cons.mp hx with rfl | hx
      · exact Bool.eq_false_iff.mpr hg
      · exact insertIndexBy_take_false gt es x hx

theorem step2_core_insert (lead : List (List Char)) (bs1 : List STCBlock)
    (b : STCBlock) (bs2 : List STCBlock) (t : List Char)
    (hlead : ∀ l ∈ lead, isBlankLine l = true)
    (hWF1 : ∀ x ∈ bs1, WFBlock x) (hb : WFBlock b)
    (hnl : ∀ x ∈ bs1, pyLt t x.tbl = false) (hl : pyLt t b.tbl = true) :
    step2_insertPos (lead ++ (bs1 ++ b :: bs2).flatMap blockLines) t =
      some (lead.length + (bs1.flatMap blockLines).length) := by
  have hflat : (bs1 ++ b :: bs2).flatMap blockLines =
      bs1.flatMap blockLines ++ (blockLines b ++ bs2.flatMap blockLines) := by
    rw [List.flatMap_append, List.flatMap_cons]
  unfold step2_insertPos
  have hassoc : lead ++ (bs1.flatMap blockLines ++
      (blockLines b ++ bs2.flatMap blockLines)) =
      (lead ++ bs1.flatMap blockLines) ++
        (blockLines b ++ bs2.flatMap blockLines) := by
    rw [List.append_assoc]
  rw [hflat, hassoc, findFirstIdx_append_none _ (fun l hl2 => by
      rcases List.mem_append.mp hl2 with hl2 | hl2
      · exact blank_tableGt (hlead l hl2)
      · exact tableGt_flat_false hWF1 hnl l hl2),
    findFirstIdx_block_pos hb hl]
  dsimp only [Option.map]
  have htake : ((lead ++ bs1.flatMap blockLines) ++
      (blockLines b ++ bs2.flatMap blockLines)).take
        (b.bpre.length + 1 + (lead ++ bs1.flatMap blockLines).length + 1) =
      (lead ++ bs1.flatMap blockLines) ++ (b.hdr :: (b.bpre ++ [b.tline])) := by
    have harith : b.bpre.length + 1 + (lead ++ bs1.flatMap blockLines).length + 1 =
        (lead ++ bs1.flatMap blockLines).length + (b.bpre.length + 2) := by omega
    rw [harith, List.take_append]
    congr 1
    have hshape : blockLines b ++ bs2.flatMap blockLines =
        b.hdr :: (b.bpre ++ (b.tline :: (b.bpost ++ bs2.flatMap blockLines))) := by
      unfold blockLines
      simp [List.append_assoc]
    rw [hshape, show b.bpre.length + 2 = (b.bpre.length + 1) + 1 by omega,
      List.take_succ_cons, show b.bpre.length + 1 = b.bpre.length + 1 by rfl]
    congr 1
    rw [List.take_append]
    simp
  rw [htake]
  have hassoc2 : (lead ++ bs1.flatMap blockLines) ++
      (b.hdr :: (b.bpre ++ [b.tline])) =
      ((lead ++ bs1.flatMap blockLines) ++ [b.hdr]) ++ (b.bpre ++ [b.tline]) := by
    simp [List.append_assoc]
  rw [hassoc2, findLastIdx_append_none _ (hasSTC_block_false hb),
    findLastIdx_append_last _ hb.1]
  simp

theorem step2_core_append (lead : List (List Char)) (bs : List STCBlock)
    (t : List Char) (hlead : ∀ l ∈ lead, isBlankLine l = true)
    (hWF : ∀ x ∈ bs, WFBlock x) (hall : ∀ x ∈ bs, pyLt t x.tbl = false) :
    step2_insertPos (lead ++ bs.flatMap blockLines) t = none := by
  unfold step2_insertPos
  rw [findFirstIdx_eq_none (fun l hl => by
    rcases List.mem_append.mp hl with hl | hl
    · exact blank_tableGt (hlead l hl)
    · exact tableGt_flat_false hWF hall l hl)]

theorem step2_newLines_insert (lead : List (List Char)) (bs1 : List STCBlock)
    (b : STCBlock) (bs2 : List STCBlock) (t : List Char)
    (hlead : ∀ l ∈ lead, isBlankLine l = true)
    (hWF1 : ∀ x ∈ bs1, WFBlock x) (hb : WFBlock b)
    (hnl : ∀ x ∈ bs1, pyLt t x.tbl = false) (hl : pyLt t b.tbl = true) :
    step2_newLines (lead ++ (bs1 ++ b :: bs2).flatMap blockLines) t =
      (if bs1 = [] then lead.dropLast else lead) ++
        bs1.flatMap blockLines ++
        entryLines
          (detectIndent (lead ++ (bs1 ++ b :: bs2).flatMap blockLines)) t ++
        (blockLines b ++ bs2.flatMap blockLines) := by
  have hflat : (bs1 ++ b :: bs2).flatMap blockLines =
      bs1.flatMap blockLines ++ (blockLines b ++ bs2.flatMap blockLines) := by
    rw [List.flatMap_append, List.flatMap_cons]
  unfold step2_newLines
  rw [step2_core_insert lead bs1 b bs2 t hlead hWF1 hb hnl hl]
  dsimp only
  by_cases hcase : bs1 = []
  · subst hcase
    rw [if_pos rfl]
    by_cases hld : lead = []
    · subst hld
      have hguard : (decide ((List.length ([] : List (List Char))) +
          (List.length ((([] : List STCBlock)).flatMap blockLines)) > 0) &&
          isBlankLine ((([] : List (List Char)) ++
            (([] : List STCBlock) ++ b :: bs2).flatMap blockLines).getD
              ((List.length ([] : List (List Char))) +
                (List.length ((([] : List STCBlock)).flatMap blockLines)) - 1) [])) =
          false := by simp
      rw [hguard, if_neg (show ¬(false = true) by simp)]
      simp
    · have hpos : 0 < lead.length := List.length_pos.mpr hld
      have hgd : (lead ++ (([] : List STCBlock) ++ b :: bs2).flatMap blockLines).getD
          (lead.length + (List.length ((([] : List STCBlock)).flatMap blockLines)) - 1)
            [] = lead.getD (lead.length - 1) [] := by
        simp only [List.flatMap_nil, List.length_nil, Nat.add_zero]
        exact List.getD_append _ _ _ _ (Nat.sub_lt hpos Nat.one_pos)
      have hgl : lead.getD (lead.length - 1) [] = lead.getLast hld := by
        rw [List.getD_eq_getElem _ _ (Nat.sub_lt hpos Nat.one_pos),
          List.getLast_eq_getElem]
      have hguard : (decide (lead.length +
          (List.length ((([] : List STCBlock)).flatMap blockLines)) > 0) &&
          isBlankLine ((lead ++ (([] : List STCBlock) ++ b :: bs2).flatMap
            blockLines).getD (lead.length +
              (List.length ((([] : List STCBlock)).flatMap blockLines)) - 1) [])) =
          true := by
        rw [hgd, hgl, hlead _ (List.getLast_mem hld)]
        simp [hpos]
      rw [hguard, if_pos (show true = true from rfl)]
      simp only [List.flatMap_nil, List.length_nil, Nat.add_zero, List.append_nil]
      rw [List.take_append_of_le_length (by omega), ← List.dropLast_eq_take,
        List.drop_left]
      simp [hflat]
  · obtain ⟨Z, L, hZ, hL⟩ := flat_ends_close hcase hWF1
    rw [if_neg hcase]
    have hshape : lead ++ (bs1 ++ b :: bs2).flatMap blockLines =
        (lead ++ Z) ++ (L :: (blockLines b ++ bs2.flatMap blockLines)) := by
      rw [hflat, hZ]
      simp [List.append_assoc]
    have hpos2 : lead.length + (bs1.flatMap blockLines).length - 1 =
        (lead ++ Z).length := by
      rw [hZ]
      simp
    have hgd : (lead ++ (bs1 ++ b :: bs2).flatMap blockLines).getD
        (lead.length + (bs1.flatMap blockLines).length - 1) [] = L := by
      rw [hshape, hpos2, List.getD_append_right _ _ _ _ (Nat.le_refl _),
        Nat.sub_self]
      rfl
    have hguard : (decide (lead.length + (bs1.flatMap blockLines).length > 0) &&
        isBlankLine ((lead ++ (bs1 ++ b :: bs2).flatMap blockLines).getD
          (lead.length + (bs1.flatMap blockLines).length - 1) [])) = false := by
      rw [hgd, endsClose_not_blank hL]
      simp
    rw [hguard, if_neg (show ¬(false = true) by simp)]
    have hlines : lead ++ (bs1 ++ b :: bs2).flatMap blockLines =
        (lead ++ bs1.flatMap blockLines) ++
          (blockLines b ++ bs2.flatMap blockLines) := by
      rw [hflat]
      simp [List.append_assoc]
    have hidx : lead.length + (bs1.flatMap blockLines).length =
        (lead ++ bs1.flatMap blockLines).length := by simp
    rw [hlines, hidx, List.take_left, List.drop_left]
    try simp [List.append_assoc]

theorem step2_newLines_append (lead : List (List Char)) (bs : List STCBlock)
    (t : List Char) (hlead : ∀ l ∈ lead, isBlankLine l = true)
    (hWF : ∀ x ∈ bs, WFBlock x) (hbs : bs ≠ [])
    (hall : ∀ x ∈ bs, pyLt t x.tbl = false) :
    step2_newLines (lead ++ bs.flatMap blockLines) t =
      lead ++ bs.flatMap blockLines ++
        entryLines (detectIndent (lead ++ bs.flatMap blockLines)) t := by
  obtain ⟨Z, L, hZ, hL⟩ := flat_ends_close hbs hWF
  unfold step2_newLines
  rw [step2_core_append lead bs t hlead hWF hall]
  dsimp only
  have hshape : lead ++ bs.flatMap blockLines = (lead ++ Z) ++ [L] := by
    rw [hZ, List.append_assoc]
  rw [hshape, findLastIdx_append_last _ hL]
  dsimp only
  have hlen : ((lead ++ Z) ++ [L]).length ≤ (lead ++ Z).length + 1 := by
    simp +arith
  rw [List.take_of_length_le hlen, List.drop_eq_nil_of_le hlen]
  simp

theorem insertIndexBy_at_of_eq (gt : α → Bool) (l : List α) {j : Nat}
    (hj : j = insertIndexBy gt l) (h : j < l.length) :
    gt (l.get ⟨j, h⟩) = true := by
  subst hj
  exact insertIndexBy_at gt l h

theorem step2_tables (lead : List (List Char)) (bs : List STCBlock)
    (t : List Char) (hWF : WF lead bs) (ht : t ≠ []) (hq : '"' ∉ t) :
    extractTables (linesOf lead bs) = blocksTables bs ∧
    extractTables (step2_newLines (linesOf lead bs) t) =
      insertAt (insertIndexBy (fun tb => pyLt t tb) (blocksTables bs)) t
        (blocksTables bs) := by
  obtain ⟨hlead, hbs, hWFb⟩ := hWF
  have hpart1 : extractTables (linesOf lead bs) = blocksTables bs := by
    unfold linesOf
    rw [extractTables_append, extractTables_blank hlead, extractTables_flat hWFb]
    rfl
  refine ⟨hpart1, ?_⟩
  set k := insertIndexBy (fun tb => pyLt t tb) (blocksTables bs) with hkdef
  have hlenmap : (blocksTables bs).length = bs.length := by
    unfold blocksTables
    rw [List.length_map]
  have hkle : k ≤ bs.length := by
    have h := insertIndexBy_le (fun tb => pyLt t tb) (blocksTables bs)
    rwa [hlenmap] at h
  have hleaddrop : extractTables (if bs.take k = [] then lead.dropLast else lead) =
      [] := by
    by_cases hc : bs.take k = []
    · rw [if_pos hc]
      exact extractTables_blank fun l hl =>
        hlead l (List.dropLast_subset lead hl)
    · rw [if_neg hc]
      exact extractTables_blank hlead
  by_cases hk : k < bs.length
  · have hsplit : bs = bs.take k ++ bs[k] :: bs.drop (k + 1) := by
      conv_lhs => rw [← List.take_append_drop k bs, List.drop_eq_getElem_cons hk]
    have hnl : ∀ x ∈ bs.take k, pyLt t x.tbl = false := by
      intro x hx
      have hmm : x.tbl ∈ (blocksTables bs).take k := by
        unfold blocksTables
        rw [← List.map_take]
        exact List.mem_map_of_mem _ hx
      exact insertIndexBy_take_false _ (blocksTables bs) x.tbl hmm
    have hk2 : k < (blocksTables bs).length := by rwa [hlenmap]
    have hl : pyLt t bs[k].tbl = true := by
      have hat := insertIndexBy_at_of_eq (fun tb => pyLt t tb) (blocksTables bs)
        hkdef hk2
      have hget : (blocksTables bs).get ⟨k, hk2⟩ = bs[k].tbl := by
        unfold blocksTables
        simp
      rwa [hget] at hat
    have hnewlines := step2_newLines_insert lead (bs.take k) bs[k]
      (bs.drop (k + 1)) t hlead
      (fun x hx => hWFb x (List.mem_of_mem_take hx))
      (hWFb _ (List.getElem_mem hk)) hnl hl
    have hlines : linesOf lead bs =
        lead ++ (bs.take k ++ bs[k] :: bs.drop (k + 1)).flatMap blockLines := by
      unfold linesOf
      conv_lhs => rw [hsplit]
    rw [hlines, hnewlines]
    rw [extractTables_append, extractTables_append, extractTables_append,
      extractTables_append, hleaddrop,
      extractTables_flat fun x hx => hWFb x (List.mem_of_mem_take hx),
      extractTables_entry (detectIndent_spaces _) ht hq,
      extractTables_block (hWFb _ (List.getElem_mem hk)),
      extractTables_flat fun x hx => hWFb x (List.mem_of_mem_drop hx)]
    unfold insertAt blocksTables
    rw [← List.map_take,
      List.drop_eq_getElem_cons (show k < (List.map (fun x => x.tbl) bs).length by
        rw [List.length_map]; exact hk)]
    simp
  · have hk3 : ¬insertIndexBy (fun tb => pyLt t tb) (blocksTables bs) <
        (blocksTables bs).length := by
      rw [hlenmap, ← hkdef]
      exact hk
    have hall : ∀ x ∈ bs, pyLt t x.tbl = false := fun x hx =>
      insertIndexBy_all_false hk3 x.tbl
        (by unfold blocksTables; exact List.mem_map_of_mem _ hx)
    have hnew := step2_newLines_append lead bs t hlead hWFb hbs hall
    have hkeq : k = bs.length := Nat.le_antisymm hkle (Nat.le_of_not_lt hk)
    show extractTables (step2_newLines (lead ++ bs.flatMap blockLines) t) = _
    rw [hnew, extractTables_append, extractTables_append,
      extractTables_blank hlead, extractTables_flat hWFb,
      extractTables_entry (detectIndent_spaces _) ht hq]
    unfold insertAt
    rw [hkeq, List.take_of_length_le (by rw [hlenmap]),
      List.drop_eq_nil_of_le (by rw [hlenmap])]
    simp

/-- The structural shape of a step2 edit on a well-formed configs section:
the original lines are written back verbatim and in order, with the four new
entry lines inserted as one contiguous block, except that one blank separator
line immediately before the insertion point may be dropped. -/
theorem step2_shape (lead : List (List Char)) (bs : List STCBlock)
    (t : List Char) (hWF : WF lead bs) :
    ∃ A B, linesOf lead bs = A ++ B ∧
      (step2_newLines (linesOf lead bs) t =
          A ++ entryLines (detectIndent (linesOf lead bs)) t ++ B ∨
        ∃ A0 bl, A = A0 ++ [bl] ∧ isBlankLine bl = true ∧
          step2_newLines (linesOf lead bs) t =
            A0 ++ entryLines (detectIndent (linesOf lead bs)) t ++ B) := by
  obtain ⟨hlead, hbs, hWFb⟩ := hWF
  set k := insertIndexBy (fun tb => pyLt t tb) (blocksTables bs) with hkdef
  have hlenmap : (blocksTables bs).length = bs.length := by
    unfold blocksTables
    rw [List.length_map]
  by_cases hk : k < bs.length
  · have hsplit : bs = bs.take k ++ bs[k] :: bs.drop (k + 1) := by
      conv_lhs => rw [← List.take_append_drop k bs, List.drop_eq_getElem_cons hk]
    have hnl : ∀ x ∈ bs.take k, pyLt t x.tbl = false := by
      intro x hx
      have hmm : x.tbl ∈ (blocksTables bs).take k := by
        unfold blocksTables
        rw [← List.map_take]
        exact List.mem_map_of_mem _ hx
      exact insertIndexBy_take_false _ (blocksTables bs) x.tbl hmm
    have hk2 : k < (blocksTables bs).length := by rwa [hlenmap]
    have hl : pyLt t bs[k].tbl = true := by
      have hat := insertIndexBy_at_of_eq (fun tb => pyLt t tb) (blocksTables bs)
        hkdef hk2
      have hget : (blocksTables bs).get ⟨k, hk2⟩ = bs[k].tbl := by
        unfold blocksTables
        simp
      rwa [hget] at hat
    have hnewlines := step2_newLines_insert lead (bs.take k) bs[k]
      (bs.drop (k + 1)) t hlead
      (fun x hx => hWFb x (List.mem_of_mem_take hx))
      (hWFb _ (List.getElem_mem hk)) hnl hl
    have hlines : linesOf lead bs =
        lead ++ (bs.take k ++ bs[k] :: bs.drop (k + 1)).flatMap blockLines := by
      unfold linesOf
      conv_lhs => rw [hsplit]
    rw [hlines]
    refine ⟨lead ++ (bs.take k).flatMap blockLines,
      blockLines bs[k] ++ (bs.drop (k + 1)).flatMap blockLines, ?_, ?_⟩
    · rw [List.flatMap_append, List.flatMap_cons]
      simp [List.append_assoc]
    by_cases hcase : bs.take k = []
    · rw [hcase] at hnewlines ⊢
      rw [if_pos rfl] at hnewlines
      by_cases hld : lead = []
      · subst hld
        left
        rw [hnewlines]
        try simp
      · right
        refine ⟨lead.dropLast, lead.getLast hld, ?_,
          hlead _ (List.getLast_mem hld), ?_⟩
        · simpa using (List.dropLast_append_getLast hld).symm
        · rw [hnewlines]
          try simp
    · left
      rw [hnewlines, if_neg hcase]
      try simp [List.append_assoc]
  · have hk3 : ¬insertIndexBy (fun tb => pyLt t tb) (blocksTables bs) <
        (blocksTables bs).length := by
      rw [hlenmap, ← hkdef]
      exact hk
    have hall : ∀ x ∈ bs, pyLt t x.tbl = false := fun x hx =>
      insertIndexBy_all_false hk3 x.tbl
        (by unfold blocksTables; exact List.mem_map_of_mem _ hx)
    have hnew := step2_newLines_append lead bs t hlead hWFb hbs hall
    refine ⟨lead ++ bs.flatMap blockLines, [], by simp [linesOf], Or.inl ?_⟩
    show step2_newLines (lead ++ bs.flatMap blockLines) t = _
    rw [hnew]
    simp [linesOf]

/-! ## Claim C1 -/

/-- Claim C1 counterexample: a located `configs = [...]` section with zero
existing entries.  The new entry has no existing entry greater than it, so
the claim requires it to be appended, but `add_stream_config_to_file`
returns the document unchanged: the append path finds no line ending in `),`
and silently inserts nothing. -/
theorem C1_counterexample :
    add_stream_config_to_file [] "configs = [".data [] "\n]".data "\n".data
      "audit__action__v1__raw".data = "configs = [\n]\n".data ∧
    extractTables (step2_newLines (splitNl []) "audit__action__v1__raw".data) =
      [] := by
  constructor <;> decide

/-- Claim C1 (amended): restricted to sections holding at least one existing
entry.  Step1: for any parsed entry list and any new topic not present, the
topic is inserted exactly before the first existing entry it sorts before
(entries at earlier positions are not greater, the entry at the insertion
position, when one exists, is greater), appending when none is greater, and
the original entries keep their relative order (take/insert/drop shape).
Step2: for any well-formed configs section (optional blank lines then at
least one `StreamTaskConfig` block), the table names extracted from the
patched lines are exactly the original table-name sequence with the new
table inserted at that same first-greater position. -/
theorem C1_ordered_insertion :
    (∀ (l : List (List Char)) (topic : List Char), topic ∉ l →
      insertEntry topic l =
        l.take (insertIndexBy (fun e => pyLt topic e) l) ++
          topic :: l.drop (insertIndexBy (fun e => pyLt topic e) l) ∧
      insertIndexBy (fun e => pyLt topic e) l ≤ l.length ∧
      (∀ j (h : j < l.length), j < insertIndexBy (fun e => pyLt topic e) l →
        pyLt topic (l.get ⟨j, h⟩) = false) ∧
      (∀ h : insertIndexBy (fun e => pyLt topic e) l < l.length,
        pyLt topic (l.get ⟨insertIndexBy (fun e => pyLt topic e) l, h⟩) = true)) ∧
    (∀ (lead : List (List Char)) (bs : List STCBlock) (t : List Char),
      WF lead bs → t ≠ [] → '"' ∉ t → t ∉ blocksTables bs →
      extractTables (linesOf lead bs) = blocksTables bs ∧
      extractTables (step2_newLines (linesOf lead bs) t) =
        (blocksTables bs).take
            (insertIndexBy (fun tb => pyLt t tb) (blocksTables bs)) ++
          t :: (blocksTables bs).drop
            (insertIndexBy (fun tb => pyLt t tb) (blocksTables bs))) := by
  constructor
  · intro l topic _
    exact ⟨rfl, insertIndexBy_le _ l, insertIndexBy_before _ l,
      insertIndexBy_at _ l⟩
  · intro lead bs t hWF ht hq _
    exact step2_tables lead bs t hWF ht hq

/-- Witness for C1_ordered_insertion: the spec scenarios on concrete data.
`bravo` goes between `alpha` and `charlie`; inserting `charlie` into the
unsorted `[bravo, alpha]` appends it; a concrete one-block configs section
receives `bbb__raw` before its `ccc__raw` block. -/
theorem C1_ordered_insertion_witness :
    insertEntry "bravo".data ["alpha".data, "charlie".data, "echo".data] =
      ["alpha".data, "bravo".data, "charlie".data, "echo".data] ∧
    insertEntry "charlie".data ["bravo".data, "alpha".data] =
      ["bravo".data, "alpha".data, "charlie".data] ∧
    extractTables (step2_newLines
      (linesOf ["".data]
        [⟨"    StreamTaskConfig(".data, [],
          "        table=\"ccc__raw\",".data, "ccc__raw".data,
          ["        warehouse=\"W\",".data, "    ),".data]⟩])
      "bbb__raw".data) = ["bbb__raw".data, "ccc__raw".data] := by
  have h1 := (C1_ordered_insertion.1
    ["alpha".data, "charlie".data, "echo".data] "bravo".data (by decide)).1
  have h2 := (C1_ordered_insertion.1
    ["bravo".data, "alpha".data] "charlie".data (by decide)).1
  have h3 := (C1_ordered_insertion.2 ["".data]
    [⟨"    StreamTaskConfig(".data, [],
      "        table=\"ccc__raw\",".data, "ccc__raw".data,
      ["        warehouse=\"W\",".data, "    ),".data]⟩]
    "bbb__raw".data (by decide) (by decide) (by decide) (by decide)).2
  exact ⟨h1, h2, h3⟩

/-! ## Claim C3 -/

/-- Claim C3 counterexample: an existing entry is not written back verbatim.
In a topics section whose single entry line is indented with 10 spaces,
inserting `zulu` re-renders the section at the fixed 8-space indentation:
the original line `          alpha` no longer occurs anywhere in the result. -/
theorem C3_counterexample :
    add_topic_to_file
      ⟨"conn:\n      topics: >-\n".data, "          alpha\n".data,
        .plain "x: 1\n".data⟩ "zulu".data false =
      "conn:\n      topics: >-\n        alpha,\n        zulu\nx: 1\n".data ∧
    ¬("          alpha".data <:+:
      add_topic_to_file
        ⟨"conn:\n      topics: >-\n".data, "          alpha\n".data,
          .plain "x: 1\n".data⟩ "zulu".data false) := by
  constructor <;> decide

/-- Claim C3 (amended): inserting one entry preserves the relative order of
all existing entries and the document text outside the located section
byte-for-byte, but the step1 surface re-renders the whole section in its
fixed canonical form (8-space indent, comma-newline delimiters, stripped
entries), so an existing entry keeps its exact bytes only when it already
has that form; the step2 surface writes every original line back verbatim
with the four new lines inserted as one contiguous block, except that one
blank separator line immediately before the insertion point may be dropped. -/
theorem C3_format_preservation :
    (∀ (pre body : List Char) (rest : RestPart) (topic : List Char)
      (realtime : Bool),
      add_topic_to_file ⟨pre, body, rest⟩ topic realtime =
        pre ++ renderTopics (insertEntry topic (parseTopics body)) ++
          (if realtime then patchRest topic rest else restText rest) ∧
      insertEntry topic (parseTopics body) =
        (parseTopics body).take
            (insertIndexBy (fun e => pyLt topic e) (parseTopics body)) ++
          topic :: (parseTopics body).drop
            (insertIndexBy (fun e => pyLt topic e) (parseTopics body))) ∧
    (∀ (lead : List (List Char)) (bs : List STCBlock) (t : List Char),
      WF lead bs →
      ∃ A B, linesOf lead bs = A ++ B ∧
        (step2_newLines (linesOf lead bs) t =
            A ++ entryLines (detectIndent (linesOf lead bs)) t ++ B ∨
          ∃ A0 bl, A = A0 ++ [bl] ∧ isBlankLine bl = true ∧
            step2_newLines (linesOf lead bs) t =
              A0 ++ entryLines (detectIndent (linesOf lead bs)) t ++ B)) := by
  exact ⟨fun pre body rest topic realtime => ⟨rfl, rfl⟩, step2_shape⟩

/-- Witness for C3_format_preservation on a concrete document and a concrete
one-block configs section. -/
theorem C3_format_preservation_witness :
    add_topic_to_file
        ⟨"p".data, "        alpha\n".data, .plain "r".data⟩ "zulu".data false =
      "p".data ++
        renderTopics (insertEntry "zulu".data
          (parseTopics "        alpha\n".data)) ++ "r".data ∧
    ∃ A B, linesOf ["".data]
        [⟨"    StreamTaskConfig(".data, [],
          "        table=\"ccc__raw\",".data, "ccc__raw".data,
          ["        warehouse=\"W\",".data, "    ),".data]⟩] = A ++ B ∧
      (step2_newLines (linesOf ["".data]
          [⟨"    StreamTaskConfig(".data, [],
            "        table=\"ccc__raw\",".data, "ccc__raw".data,
            ["        warehouse=\"W\",".data, "    ),".data]⟩]) "zzz__raw".data =
          A ++ entryLines (detectIndent (linesOf ["".data]
            [⟨"    StreamTaskConfig(".data, [],
              "        table=\"ccc__raw\",".data, "ccc__raw".data,
              ["        warehouse=\"W\",".data, "    ),".data]⟩])) "zzz__raw".data
            ++ B ∨
        ∃ A0 bl, A = A0 ++ [bl] ∧ isBlankLine bl = true ∧
          step2_newLines (linesOf ["".data]
            [⟨"    StreamTaskConfig(".data, [],
              "        table=\"ccc__raw\",".data, "ccc__raw".data,
              ["        warehouse=\"W\",".data, "    ),".data]⟩]) "zzz__raw".data =
            A0 ++ entryLines (detectIndent (linesOf ["".data]
              [⟨"    StreamTaskConfig(".data, [],
                "        table=\"ccc__raw\",".data, "ccc__raw".data,
                ["        warehouse=\"W\",".data, "    ),".data]⟩])) "zzz__raw".data
              ++ B) := by
  constructor
  · exact (C3_format_preservation.1 "p".data "        alpha\n".data
      (.plain "r".data) "zulu".data false).1
  · exact C3_format_preservation.2 ["".data]
      [⟨"    StreamTaskConfig(".data, [],
        "        table=\"ccc__raw\",".data, "ccc__raw".data,
        ["        warehouse=\"W\",".data, "    ),".data]⟩] "zzz__raw".data
      (by decide)

/-! ## Claim C7 -/

/-- Claim C7: the realtime surface updates the topics section and the
`topic2table` mapping section independently with the same insertion rule,
and a failure to locate the mapping section does not abort or undo the
topics edit.  When the second section is missing the result still carries
the new topic inserted into the topics section; when it is present and the
mapping already exists, the mapping text is untouched; when it is present
and missing the mapping, the new `topic:table` mapping is inserted before
the first mapping whose key part sorts greater (exactly the rule used for
the topics themselves, applied to the key extracted before the colon). -/
theorem C7_multi_section :
    (∀ (pre body restS topic : List Char),
      add_topic_to_file ⟨pre, body, .plain restS⟩ topic true =
        pre ++ renderTopics (insertEntry topic (parseTopics body)) ++ restS) ∧
    (∀ (body topic : List Char),
      (∀ x ∈ parseTopics body, entryOk x = true) → entryOk topic = true →
      listMem topic
        (parseTopics (renderTopics (insertEntry topic (parseTopics body)))) =
        true) ∧
    (∀ (pre body mid mapBody tail topic : List Char),
      (parseTopics mapBody).any
        (fun m => List.isPrefixOf (topic ++ [':']) m) = true →
      add_topic_to_file ⟨pre, body, .withMap mid mapBody tail⟩ topic true =
        pre ++ renderTopics (insertEntry topic (parseTopics body)) ++
          (mid ++ mapBody ++ tail)) ∧
    (∀ (pre body mid mapBody tail topic : List Char),
      (parseTopics mapBody).any
        (fun m => List.isPrefixOf (topic ++ [':']) m) = false →
      add_topic_to_file ⟨pre, body, .withMap mid mapBody tail⟩ topic true =
        pre ++ renderTopics (insertEntry topic (parseTopics body)) ++
          (mid ++ renderTopics (insertAt
              (insertIndexBy (fun m => pyLt topic (mapKey m))
                (parseTopics mapBody))
              (topic ++ [':'] ++ generate_table_name topic)
              (parseTopics mapBody)) ++ tail)) ∧
    (∀ (topic : List Char) (ml : List (List Char)) (j : Nat)
      (h : j < ml.length),
      j < insertIndexBy (fun m => pyLt topic (mapKey m)) ml →
      pyLt topic (mapKey (ml.get ⟨j, h⟩)) = false) ∧
    (∀ (topic : List Char) (ml : List (List Char))
      (h : insertIndexBy (fun m => pyLt topic (mapKey m)) ml < ml.length),
      pyLt topic
        (mapKey (ml.get
          ⟨insertIndexBy (fun m => pyLt topic (mapKey m)) ml, h⟩)) = true) := by
  refine ⟨fun pre body restS topic => rfl, ?_, ?_, ?_, ?_, ?_⟩
  · intro body topic hok htopic
    have hall : ∀ x ∈ insertEntry topic (parseTopics body), entryOk x = true :=
      fun x hx => (mem_of_mem_insertAt hx).elim (fun he => he ▸ htopic) (hok x)
    rw [parse_render _ hall]
    exact listMem_iff.mpr (mem_insertAt_self _ _ _)
  · intro pre body mid mapBody tail topic h
    unfold add_topic_to_file patchRest
    rw [if_pos rfl]
    dsimp only
    rw [h, if_pos rfl]
  · intro pre body mid mapBody tail topic h
    unfold add_topic_to_file patchRest
    rw [if_pos rfl]
    dsimp only
    rw [h, if_neg (by simp)]
  · intro topic ml j h hj
    exact insertIndexBy_before _ ml j h hj
  · intro topic ml h
    exact insertIndexBy_at _ ml h

/-- Witness for C7_multi_section: the missing-section case on concrete text,
the inserted topic visible in the result, and a concrete mapping insertion. -/
theorem C7_multi_section_witness :
    add_topic_to_file
        ⟨"p".data, "        alpha\n".data, .plain "tailtext".data⟩
        "bravo".data true =
      "p".data ++ renderTopics (insertEntry "bravo".data
        (parseTopics "        alpha\n".data)) ++ "tailtext".data ∧
    listMem "bravo".data
      (parseTopics (renderTopics (insertEntry "bravo".data
        (parseTopics "        alpha\n".data)))) = true ∧
    add_topic_to_file
        ⟨"p".data, "        alpha\n".data,
          .withMap "m".data "        alpha:alpha__raw\n".data "e".data⟩
        "bravo".data true =
      "p".data ++ renderTopics (insertEntry "bravo".data
          (parseTopics "        alpha\n".data)) ++
        ("m".data ++ renderTopics (insertAt
            (insertIndexBy (fun m => pyLt "bravo".data (mapKey m))
              (parseTopics "        alpha:alpha__raw\n".data))
            ("bravo".data ++ [':'] ++ generate_table_name "bravo".data)
            (parseTopics "        alpha:alpha__raw\n".data)) ++ "e".data) := by
  refine ⟨C7_multi_section.1 "p".data "        alpha\n".data "tailtext".data
      "bravo".data,
    C7_multi_section.2.1 "        alpha\n".data "bravo".data (by decide)
      (by decide),
    C7_multi_section.2.2.2.1 "p".data "        alpha\n".data "m".data
      "        alpha:alpha__raw\n".data "e".data "bravo".data (by decide)⟩

end TopicSync
